import Mathlib

/- Verification of the TIPC name table (net/tipc/name_table.c): a shallow
embedding of the table's data model and of the publish / withdraw /
translate / lookup / subscribe operations, followed by theorems about the
embedded operations.

Linux intrusive lists are modelled as Lean lists whose head is the list
head (`list_add` prepends, `list_move_tail` moves an element to the end,
`list_first_entry` is the head).  Machine `u32` values are modelled as
`Nat`: every operation of the source only compares or copies these values,
so wrap-around never arises.  `kzalloc`/`kcalloc` outcomes are made
explicit through an `AllocPlan` record of success flags, one per
allocation site, so that the failure paths of the source are part of the
model. -/

set_option maxRecDepth 10000

/-- A publication record (struct publication): one bound instance range
published at one node/port with a caller supplied key. -/
structure Publication where
  ptype : Nat
  lower : Nat
  upper : Nat
  scope : Nat
  node : Nat
  port : Nat
  key : Nat
deriving DecidableEq, Repr, Inhabited

/-- struct name_info: the binding set of one sub-sequence, holding the
node-local publications and all publications of one (type, lower, upper). -/
structure NameInfo where
  local_publ : List Publication
  all_publ : List Publication
deriving DecidableEq, Repr, Inhabited

/-- struct sub_seq: one entry of the sorted sub-sequence array, a
[lower, upper] instance range with its binding set. -/
structure SubSeq where
  lower : Nat
  upper : Nat
  info : NameInfo
deriving DecidableEq, Repr, Inhabited

/-- A subscription on (stype, slower, supper); noStatus models the
TIPC_SUB_NO_STATUS filter bit read by tipc_nameseq_subscribe. -/
structure Subscription where
  stype : Nat
  slower : Nat
  supper : Nat
  noStatus : Bool
deriving DecidableEq, Repr, Inhabited

/-- struct name_seq: every sub-sequence of one type (live prefix of the
array, so length = first_free), the array capacity (alloc) and the
subscription list. -/
structure NameSeq where
  ntype : Nat
  sseqs : List SubSeq
  alloc : Nat
  subscriptions : List Subscription
deriving DecidableEq, Repr, Inhabited

/-- The name table: the flattened hash chains of name sequences (find is
by type equality, so bucketing is not observable) and the local
publication counter. -/
structure NameTable where
  seqs : List NameSeq
  local_publ_count : Nat
deriving DecidableEq, Repr, Inhabited

/-- Event kind delivered to subscriptions: TIPC_PUBLISHED / TIPC_WITHDRAWN. -/
inductive EvKind where
  | published : EvKind
  | withdrawn : EvKind
deriving DecidableEq, Repr, Inhabited

/-- One event delivered to a subscription by tipc_sub_report_overlap; flag
is must_report on the subscribe path and created_subseq /
removed_subseq on the publish / withdraw paths. -/
structure Event where
  kind : EvKind
  lower : Nat
  upper : Nat
  port : Nat
  node : Nat
  scope : Nat
  flag : Bool
deriving DecidableEq, Repr, Inhabited

/-- Success flags for the allocation sites of a publish:
nseqOk covers tipc_nameseq_create (the name_seq and its initial array),
growOk the doubled sub-sequence array, infoOk the name_info of a new
sub-sequence, publOk the publication record itself. -/
structure AllocPlan where
  nseqOk : Bool
  growOk : Bool
  infoOk : Bool
  publOk : Bool
deriving DecidableEq, Repr, Inhabited

/-- The plan on which every allocation succeeds. -/
def AllocPlan.ok : AllocPlan := ⟨true, true, true, true⟩

/-- Modelled from the spec: the node-local-address oracle (spec section 6
"a node-local-address oracle own_node_id()"); a publication belongs to the
local list iff the publishing node is this process's own node (spec
section 4.2 step 6).  The helper in_own_node is declared outside this
repository's sources. -/
def in_own_node (own node : Nat) : Bool := node == own

/-- Modelled from the spec: the maximum-scope constant consumed from
collaborators (spec section 4.2 step 1 "Reject if scope exceeds the
maximum allowed scope"); the constant TIPC_NODE_SCOPE is declared outside
this repository's sources. -/
def TIPC_NODE_SCOPE : Nat := 3

/-- Modelled from the spec: the overlap test used for subscriptions,
closed interval intersection over [lower, upper] (spec section 4.4); the
helper tipc_sub_check_overlap is declared outside this repository's
sources. -/
def tipc_sub_check_overlap (slower supper flower fupper : Nat) : Bool :=
  decide (max slower flower ≤ min supper fupper)

/-- Modelled from the spec: event delivery to one subscription, firing one
overlap event when the subscription's range intersects the reported range
(spec sections 4.2 step 7, 4.4 and glossary "Overlap event"); the helper
tipc_sub_report_overlap is declared outside this repository's sources. -/
def tipc_sub_report_overlap (sub : Subscription) (flower fupper : Nat)
    (k : EvKind) (port node scope : Nat) (must : Bool) : List Event :=
  if tipc_sub_check_overlap sub.slower sub.supper flower fupper then
    [⟨k, flower, fupper, port, node, scope, must⟩]
  else []

/-- Events fired at every subscription of a sequence for one publication
(the list_for_each_entry_safe loops of tipc_nameseq_insert_publ and
tipc_nameseq_remove_publ). -/
def reportEvents (subs : List Subscription) (k : EvKind) (publ : Publication)
    (flag : Bool) : List Event :=
  subs.flatMap fun s =>
    tipc_sub_report_overlap s publ.lower publ.upper k publ.port publ.node
      publ.scope flag

/-- The loop of nameseq_find_subseq: binary search for the sub-sequence
containing inst, returning its index.  The C while loop is encoded with an
explicit iteration bound; the search interval [low, high] strictly shrinks
on every iteration, so any bound of at least high + 1 - low iterations
returns the loop's exit value. -/
def find_loop (sseqs : List SubSeq) (inst : Nat) :
    Nat → Int → Int → Option Nat
  | 0, _, _ => none
  | fuel + 1, low, high =>
    if low ≤ high then
      let mid : Int := (low + high) / 2
      let s := sseqs.getD mid.toNat default
      if inst < s.lower then find_loop sseqs inst fuel low (mid - 1)
      else if s.upper < inst then find_loop sseqs inst fuel (mid + 1) high
      else some mid.toNat
    else none

/-- nameseq_find_subseq: index of the sub-sequence whose range contains
inst, if any (the source returns the pointer &sseqs[mid]; the model
returns the index mid). -/
def nameseq_find_subseq (nseq : NameSeq) (inst : Nat) : Option Nat :=
  find_loop nseq.sseqs inst (nseq.sseqs.length + 1) 0
    ((nseq.sseqs.length : Int) - 1)

/-- The loop of nameseq_locate_subseq, identical to find_loop except that
on a miss it returns the final value of low. -/
def locate_loop (sseqs : List SubSeq) (inst : Nat) :
    Nat → Int → Int → Nat
  | 0, low, _ => low.toNat
  | fuel + 1, low, high =>
    if low ≤ high then
      let mid : Int := (low + high) / 2
      let s := sseqs.getD mid.toNat default
      if inst < s.lower then locate_loop sseqs inst fuel low (mid - 1)
      else if s.upper < inst then locate_loop sseqs inst fuel (mid + 1) high
      else mid.toNat
    else low.toNat

/-- nameseq_locate_subseq: index of the sub-sequence containing inst, or
the position where a new entry for inst would be inserted. -/
def nameseq_locate_subseq (nseq : NameSeq) (inst : Nat) : Nat :=
  locate_loop nseq.sseqs inst (nseq.sseqs.length + 1) 0
    ((nseq.sseqs.length : Int) - 1)

/-- Insertion of an element at a given position of a list, the model of
the memmove that opens a slot at inspos in the sub-sequence array. -/
def listInsertAt {α : Type} : Nat → α → List α → List α
  | 0, x, l => x :: l
  | _ + 1, x, [] => [x]
  | n + 1, x, a :: l => a :: listInsertAt n x l

/-- publ_create: build the publication record (its kzalloc outcome is
decided by the caller through the AllocPlan). -/
def publ_create (ptype lower upper scope node port key : Nat) : Publication :=
  ⟨ptype, lower, upper, scope, node, port, key⟩

/-- The duplicate test of tipc_nameseq_insert_publ: same port and key,
and a wildcard (zero) or equal node. -/
def dupMatch (port key node : Nat) (p : Publication) : Bool :=
  p.port == port && p.key == key && (p.node == 0 || p.node == node)

/-- The publication matcher of tipc_nameseq_remove_publ: same key and
port, and a wildcard (zero) or equal node. -/
def withdrawMatch (key port node : Nat) (p : Publication) : Bool :=
  p.key == key && p.port == port && (p.node == 0 || p.node == node)

/-- tipc_nameseq_insert_publ: insert one publication into a name
sequence.  Returns the created publication (none on any rejection), the
updated sequence, and the events delivered to the sequence's
subscriptions. -/
def tipc_nameseq_insert_publ (own : Nat) (plan : AllocPlan) (nseq : NameSeq)
    (ptype lower upper scope node port key : Nat) :
    Option Publication × NameSeq × List Event :=
  match nameseq_find_subseq nseq lower with
  | some j =>
    let sseq := nseq.sseqs.getD j default
    -- lower end overlaps an existing entry: need an exact match
    if sseq.lower ≠ lower ∨ sseq.upper ≠ upper then (none, nseq, [])
    -- check if an identical publication already exists
    else if sseq.info.all_publ.any (dupMatch port key node) then
      (none, nseq, [])
    else if plan.publOk then
      let publ := publ_create ptype lower upper scope node port key
      let info' : NameInfo :=
        { local_publ :=
            if in_own_node own node then publ :: sseq.info.local_publ
            else sseq.info.local_publ
          all_publ := publ :: sseq.info.all_publ }
      let nseq' := { nseq with sseqs := nseq.sseqs.set j { sseq with info := info' } }
      (some publ, nseq', reportEvents nseq'.subscriptions .published publ false)
    else (none, nseq, [])
  | none =>
    let inspos := nameseq_locate_subseq nseq lower
    -- fail if the upper end overlaps into an existing entry
    if inspos < nseq.sseqs.length ∧ (nseq.sseqs.getD inspos default).lower ≤ upper then
      (none, nseq, [])
    else
      match (if nseq.sseqs.length == nseq.alloc then
               (if plan.growOk then some (nseq.alloc * 2) else none)
             else some nseq.alloc) with
      | none => (none, nseq, [])
      | some alloc' =>
        if plan.infoOk then
          -- insert the new (still empty) sub-sequence slot
          let nseq1 : NameSeq :=
            { nseq with
              sseqs := listInsertAt inspos ⟨lower, upper, ⟨[], []⟩⟩ nseq.sseqs
              alloc := alloc' }
          if plan.publOk then
            let publ := publ_create ptype lower upper scope node port key
            let info' : NameInfo :=
              ⟨if in_own_node own node then [publ] else [], [publ]⟩
            let nseq2 :=
              { nseq1 with sseqs := nseq1.sseqs.set inspos ⟨lower, upper, info'⟩ }
            (some publ, nseq2, reportEvents nseq2.subscriptions .published publ true)
          else (none, nseq1, [])
        else (none, { nseq with alloc := alloc' }, [])

/-- tipc_nameseq_remove_publ: remove the first publication of the
sub-sequence containing inst that matches key, port and (wildcard or
equal) node. -/
def tipc_nameseq_remove_publ (own : Nat) (nseq : NameSeq)
    (inst node port key : Nat) : Option Publication × NameSeq × List Event :=
  match nameseq_find_subseq nseq inst with
  | none => (none, nseq, [])
  | some j =>
    let sseq := nseq.sseqs.getD j default
    match sseq.info.all_publ.find? (withdrawMatch key port node) with
    | none => (none, nseq, [])
    | some publ =>
      let all' := sseq.info.all_publ.erase publ
      let local' :=
        if in_own_node own node then sseq.info.local_publ.erase publ
        else sseq.info.local_publ
      -- contract the sub-sequence array if the binding set became empty
      if all' = [] then
        let nseq' := { nseq with sseqs := nseq.sseqs.eraseIdx j }
        (some publ, nseq', reportEvents nseq'.subscriptions .withdrawn publ true)
      else
        let nseq' :=
          { nseq with
            sseqs := nseq.sseqs.set j { sseq with info := ⟨local', all'⟩ } }
        (some publ, nseq', reportEvents nseq'.subscriptions .withdrawn publ false)

/-- The publication loop of tipc_nameseq_subscribe for one overlapping
sub-sequence: one PUBLISHED report per publication of the all list,
must_report on the first loop iteration only. -/
def subscribeReports (sub : Subscription) (flower fupper : Nat) :
    List Publication → Bool → List Event
  | [], _ => []
  | p :: ps, must =>
    tipc_sub_report_overlap sub flower fupper .published p.port p.node
      p.scope must ++ subscribeReports sub flower fupper ps false

/-- tipc_nameseq_subscribe: attach the subscription and, unless its filter
suppresses status events, report every publication of every sub-sequence
overlapping the subscribed range. -/
def tipc_nameseq_subscribe (nseq : NameSeq) (sub : Subscription) :
    NameSeq × List Event :=
  let nseq' := { nseq with subscriptions := sub :: nseq.subscriptions }
  if sub.noStatus then (nseq', [])
  else
    (nseq',
      nseq.sseqs.flatMap fun ss =>
        if tipc_sub_check_overlap sub.slower sub.supper ss.lower ss.upper then
          subscribeReports sub ss.lower ss.upper ss.info.all_publ true
        else [])

/-- The first index of a list whose element satisfies a predicate, the
model of a linear chain walk that stops at the first hit. -/
def firstSatIdx {α : Type} (P : α → Bool) : List α → Option Nat
  | [] => none
  | a :: t => if P a then some 0 else (firstSatIdx P t).map (· + 1)

/-- nametbl_find_seq: position of the name sequence of a type in the
table's chain (the source returns the pointer; the model the index). -/
def nametbl_find_seq (tbl : NameTable) (t : Nat) : Option Nat :=
  firstSatIdx (fun s => s.ntype == t) tbl.seqs

/-- tipc_nameseq_create: a fresh name sequence (alloc 1, no live entries,
no subscriptions); it is linked into the chain by the caller. -/
def tipc_nameseq_create (t : Nat) : NameSeq := ⟨t, [], 1, []⟩

/-- tipc_nametbl_insert_publ: validate the arguments, locate or lazily
create the name sequence of the type (a newly created sequence is linked
into the chain before the insert runs, exactly as in the source), and
insert the publication. -/
def tipc_nametbl_insert_publ (own : Nat) (plan : AllocPlan) (tbl : NameTable)
    (ptype lower upper scope node port key : Nat) :
    Option Publication × NameTable × List Event :=
  if TIPC_NODE_SCOPE < scope ∨ upper < lower then (none, tbl, [])
  else
    match nametbl_find_seq tbl ptype with
    | some i =>
      let s := tbl.seqs.getD i default
      let r := tipc_nameseq_insert_publ own plan s ptype lower upper scope node port key
      (r.1, { tbl with seqs := tbl.seqs.set i r.2.1 }, r.2.2)
    | none =>
      if plan.nseqOk then
        let r := tipc_nameseq_insert_publ own plan (tipc_nameseq_create ptype)
          ptype lower upper scope node port key
        (r.1, { tbl with seqs := r.2.1 :: tbl.seqs }, r.2.2)
      else (none, tbl, [])

/-- tipc_nametbl_remove_publ: remove a publication and unlink the name
sequence when it has neither live sub-sequences nor subscriptions left. -/
def tipc_nametbl_remove_publ (own : Nat) (tbl : NameTable)
    (ptype lower node port key : Nat) :
    Option Publication × NameTable × List Event :=
  match nametbl_find_seq tbl ptype with
  | none => (none, tbl, [])
  | some i =>
    let s := tbl.seqs.getD i default
    let r := tipc_nameseq_remove_publ own s lower node port key
    if r.2.1.sseqs.length = 0 ∧ r.2.1.subscriptions = [] then
      (r.1, { tbl with seqs := tbl.seqs.eraseIdx i }, r.2.2)
    else
      (r.1, { tbl with seqs := tbl.seqs.set i r.2.1 }, r.2.2)

/-- tipc_nametbl_publish: the local publish entry point — quota check,
insert with the own address as node, counter increment on success. -/
def tipc_nametbl_publish (own maxPubl : Nat) (plan : AllocPlan)
    (tbl : NameTable) (ptype lower upper scope port key : Nat) :
    Option Publication × NameTable × List Event :=
  if maxPubl ≤ tbl.local_publ_count then (none, tbl, [])
  else
    let r := tipc_nametbl_insert_publ own plan tbl ptype lower upper scope own port key
    match r.1 with
    | some p =>
      (some p, { r.2.1 with local_publ_count := r.2.1.local_publ_count + 1 }, r.2.2)
    | none => (none, r.2.1, r.2.2)

/-- Modelled from the spec: the search-domain test of translate — a
destnode of 0 means "no destination constraint yet" and this node's own
address is within scope (spec section 4.6); the helper tipc_in_scope is
declared outside this repository's sources. -/
def tipc_in_scope (domain addr : Nat) : Bool := domain == 0 || domain == addr

/-- Write-back of a mutated binding set into position j of a sequence's
sub-sequence array (the source mutates the binding set in place). -/
def seqSetInfo (s : NameSeq) (j : Nat) (info' : NameInfo) : NameSeq :=
  { s with sseqs := s.sseqs.set j { s.sseqs.getD j default with info := info' } }

/-- Write-back of a mutated name sequence into position i of the table's
chain (the source mutates the sequence in place). -/
def tblSetSeq (tbl : NameTable) (i : Nat) (s' : NameSeq) : NameTable :=
  { tbl with seqs := tbl.seqs.set i s' }

/-- tipc_nametbl_translate: point lookup with the closest-first /
round-robin selection policies.  Returns (port, value written to
destnode, updated table); a branch that reads the head of an empty
binding list is unreachable in reachable tables (binding sets are
non-empty) and is modelled as no-match. -/
def tipc_nametbl_translate (own : Nat) (tbl : NameTable)
    (ptype inst destnode : Nat) : Nat × Nat × NameTable :=
  if ¬ tipc_in_scope destnode own then (0, destnode, tbl)
  else
    match nametbl_find_seq tbl ptype with
    | none => (0, 0, tbl)
    | some i =>
      let s := tbl.seqs.getD i default
      match nameseq_find_subseq s inst with
      | none => (0, 0, tbl)
      | some j =>
        let info := (s.sseqs.getD j default).info
        -- closest-first algorithm
        if destnode = 0 then
          match info.local_publ with
          | p :: rest =>
            (p.port, p.node,
              tblSetSeq tbl i (seqSetInfo s j { info with local_publ := rest ++ [p] }))
          | [] =>
            match info.all_publ with
            | p :: rest =>
              (p.port, p.node,
                tblSetSeq tbl i (seqSetInfo s j { info with all_publ := rest ++ [p] }))
            | [] => (0, 0, tbl)
        -- round-robin algorithm, own node as destination
        else if destnode = own then
          match info.local_publ with
          | [] => (0, 0, tbl)
          | p :: rest =>
            (p.port, p.node,
              tblSetSeq tbl i (seqSetInfo s j { info with local_publ := rest ++ [p] }))
        -- round-robin algorithm, some other destination
        else
          match info.all_publ with
          | p :: rest =>
            (p.port, p.node,
              tblSetSeq tbl i (seqSetInfo s j { info with all_publ := rest ++ [p] }))
          | [] => (0, 0, tbl)

/-- tipc_dest_find: whether a (node, port) destination is already in the
destination list (the source packs the pair into one u64 value; both
components are u32, so value equality is pair equality). -/
def tipc_dest_find (l : List (Nat × Nat)) (node port : Nat) : Bool :=
  l.contains (node, port)

/-- tipc_dest_push: prepend a (node, port) destination unless already
present (deduplication by node + port). -/
def tipc_dest_push (l : List (Nat × Nat)) (node port : Nat) : List (Nat × Nat) :=
  if tipc_dest_find l node port then l else (node, port) :: l

/-- The list_for_each_entry loop of tipc_nametbl_lookup over the all list:
skip scope mismatches and the caller's own excluded (port, node); push
every acceptable destination and count it; with all = false stop at the
first acceptable publication, which is returned for rotation. -/
def lookup_scan (own scope exclude : Nat) (all : Bool) :
    List Publication → List (Nat × Nat) → Nat →
    List (Nat × Nat) × Nat × Option Publication
  | [], dsts, cnt => (dsts, cnt, none)
  | p :: ps, dsts, cnt =>
    if p.scope ≠ scope then lookup_scan own scope exclude all ps dsts cnt
    else if p.port = exclude ∧ p.node = own then
      lookup_scan own scope exclude all ps dsts cnt
    else
      let dsts' := tipc_dest_push dsts p.node p.port
      if all then lookup_scan own scope exclude all ps dsts' (cnt + 1)
      else (dsts', cnt + 1, some p)

/-- tipc_nametbl_lookup: multi-destination lookup.  Returns the
destination list, dstcnt, the "destination list non-empty" flag and the
updated table (rotation of the selected publication when all = false). -/
def tipc_nametbl_lookup (own : Nat) (tbl : NameTable) (ptype inst scope : Nat)
    (dsts0 : List (Nat × Nat)) (exclude : Nat) (all : Bool) :
    List (Nat × Nat) × Nat × Bool × NameTable :=
  match nametbl_find_seq tbl ptype with
  | none => (dsts0, 0, !dsts0.isEmpty, tbl)
  | some i =>
    let s := tbl.seqs.getD i default
    match nameseq_find_subseq s inst with
    | none => (dsts0, 0, !dsts0.isEmpty, tbl)
    | some j =>
      let ss := s.sseqs.getD j default
      let r := lookup_scan own scope exclude all ss.info.all_publ dsts0 0
      match r.2.2 with
      | none => (r.1, r.2.1, !r.1.isEmpty, tbl)
      | some p =>
        let info' := { ss.info with all_publ := ss.info.all_publ.erase p ++ [p] }
        (r.1, r.2.1, !r.1.isEmpty, tblSetSeq tbl i (seqSetInfo s j info'))

/-- tipc_nametbl_withdraw: the local withdraw entry point — remove with
the own address as node, counter decrement on success. -/
def tipc_nametbl_withdraw (own : Nat) (tbl : NameTable)
    (ptype lower port key : Nat) : Bool × NameTable × List Event :=
  let r := tipc_nametbl_remove_publ own tbl ptype lower own port key
  match r.1 with
  | some _ =>
    (true, { r.2.1 with local_publ_count := r.2.1.local_publ_count - 1 }, r.2.2)
  | none => (false, r.2.1, r.2.2)

/-! Invariants of the name table. -/

/-- A sub-sequence's range contains an instance value. -/
def containsInst (s : SubSeq) (inst : Nat) : Prop :=
  s.lower ≤ inst ∧ inst ≤ s.upper

instance (s : SubSeq) (inst : Nat) : Decidable (containsInst s inst) := by
  unfold containsInst; infer_instance

/-- Two sub-sequence ranges are disjoint. -/
def rangeDisjoint (a b : SubSeq) : Prop :=
  a.upper < b.lower ∨ b.upper < a.lower

/-- The live sub-sequence array in scan order: each entry ends strictly
before the next begins. -/
def seqSorted (l : List SubSeq) : Prop :=
  l.Pairwise fun a b => a.upper < b.lower

/-- Every live range is well formed (lower ≤ upper). -/
def seqWF (l : List SubSeq) : Prop := ∀ s ∈ l, s.lower ≤ s.upper

/-- Every live binding set is non-empty. -/
def seqNE (l : List SubSeq) : Prop := ∀ s ∈ l, s.info.all_publ ≠ []

/-- The name sequence invariant of the specification: sub-sequences
strictly ascending by lower, pairwise disjoint ranges, well-formed
ranges, non-empty binding sets. -/
def NameSeq.Inv (ns : NameSeq) : Prop :=
  ns.sseqs.Pairwise (fun a b => a.lower < b.lower) ∧
  ns.sseqs.Pairwise rangeDisjoint ∧ seqWF ns.sseqs ∧ seqNE ns.sseqs

/-- The table invariant: every linked name sequence satisfies Inv. -/
def NameTable.Inv (tbl : NameTable) : Prop := ∀ s ∈ tbl.seqs, s.Inv

/-- The insertion point of an instance value in the array: the number of
leading entries that end strictly before it. -/
def insPt (l : List SubSeq) (inst : Nat) : Nat :=
  (l.takeWhile fun s => decide (s.upper < inst)).length

instance (a b : SubSeq) : Decidable (rangeDisjoint a b) := by
  unfold rangeDisjoint; infer_instance

instance (l : List SubSeq) : Decidable (seqSorted l) := by
  unfold seqSorted; infer_instance

instance (l : List SubSeq) : Decidable (seqWF l) := by
  unfold seqWF; infer_instance

instance (l : List SubSeq) : Decidable (seqNE l) := by
  unfold seqNE; infer_instance

instance (ns : NameSeq) : Decidable ns.Inv := by
  unfold NameSeq.Inv; infer_instance

instance (tbl : NameTable) : Decidable tbl.Inv := by
  unfold NameTable.Inv; infer_instance

theorem getD_eq_getElem {α : Type} [Inhabited α] (l : List α) (k : Nat)
    (h : k < l.length) : l.getD k default = l[k] := by
  simp [List.getD, List.getElem?_eq_getElem h]

theorem getD_mem {α : Type} [Inhabited α] (l : List α) (k : Nat)
    (h : k < l.length) : l.getD k default ∈ l := by
  rw [getD_eq_getElem l k h]; exact List.getElem_mem h

/-- The combined working order of the array, equivalent to the first
three conjuncts of Inv. -/
theorem seqSorted_of_inv {ns : NameSeq} (h : ns.Inv) : seqSorted ns.sseqs := by
  obtain ⟨hlt, hd, hw, _⟩ := h
  refine List.Pairwise.imp_of_mem ?_ (hlt.and hd)
  intro a b ha hb hab
  rcases hab with ⟨hab1, hab2 | hab2⟩
  · exact hab2
  · exact absurd (lt_trans hab1 (lt_of_le_of_lt (hw b hb) hab2)) (lt_irrefl _)

/-! Facts about sorted sub-sequence arrays and the binary searches. -/

theorem sorted_rel {l : List SubSeq} (hs : seqSorted l) {i j : Nat}
    (hi : i < l.length) (hj : j < l.length) (hij : i < j) :
    l[i].upper < l[j].lower :=
  (List.pairwise_iff_getElem.mp hs) i j hi hj hij

theorem sorted_lower_mono {l : List SubSeq} (hs : seqSorted l) (hw : seqWF l)
    {i j : Nat} (hi : i < l.length) (hj : j < l.length) (hij : i ≤ j) :
    l[i].lower ≤ l[j].lower := by
  rcases Nat.lt_or_ge i j with h | h
  · exact le_of_lt (lt_of_le_of_lt (hw _ (List.getElem_mem hi)) (sorted_rel hs hi hj h))
  · have : i = j := le_antisymm hij h
    subst this; exact le_refl _

theorem contains_unique {l : List SubSeq} (hs : seqSorted l) {inst : Nat}
    {i j : Nat} (hi : i < l.length) (hj : j < l.length)
    (hci : containsInst l[i] inst) (hcj : containsInst l[j] inst) : i = j := by
  rcases Nat.lt_trichotomy i j with h | h | h
  · exact absurd (lt_of_le_of_lt hci.2 (lt_of_lt_of_le (sorted_rel hs hi hj h) hcj.1))
      (lt_irrefl _)
  · exact h
  · exact absurd (lt_of_le_of_lt hcj.2 (lt_of_lt_of_le (sorted_rel hs hj hi h) hci.1))
      (lt_irrefl _)

theorem takeWhile_length_le {α : Type} (P : α → Bool) (l : List α) :
    (l.takeWhile P).length ≤ l.length :=
  (List.takeWhile_prefix P).sublist.length_le

theorem takeWhile_getD_true {α : Type} [Inhabited α] (P : α → Bool) :
    ∀ (l : List α) (k : Nat), k < (l.takeWhile P).length →
      P (l.getD k default) = true := by
  intro l
  induction l with
  | nil => intro k hk; simp at hk
  | cons a t ih =>
    intro k hk
    rw [List.takeWhile_cons] at hk
    by_cases ha : P a
    · rw [if_pos ha] at hk
      rcases k with _ | k
      · simpa using ha
      · simp only [List.length_cons, Nat.succ_lt_succ_iff] at hk
        simpa using ih k hk
    · rw [if_neg ha] at hk; simp at hk

theorem takeWhile_getD_stop {α : Type} [Inhabited α] (P : α → Bool) :
    ∀ (l : List α), (l.takeWhile P).length < l.length →
      P (l.getD (l.takeWhile P).length default) = false := by
  intro l
  induction l with
  | nil => intro h; simp at h
  | cons a t ih =>
    intro h
    rw [List.takeWhile_cons] at h ⊢
    by_cases ha : P a
    · rw [if_pos ha] at h ⊢
      simp only [List.length_cons, Nat.succ_lt_succ_iff] at h
      simpa using ih h
    · rw [if_neg ha] at h ⊢
      simpa using ha

theorem takeWhile_length_ge {α : Type} [Inhabited α] (P : α → Bool) :
    ∀ (l : List α) (m : Nat), m ≤ l.length →
      (∀ k, k < m → P (l.getD k default) = true) →
      m ≤ (l.takeWhile P).length := by
  intro l
  induction l with
  | nil => intro m hm _; simpa using hm
  | cons a t ih =>
    intro m hm hall
    rcases m with _ | m
    · exact Nat.zero_le _
    · have ha : P a = true := by simpa using hall 0 (Nat.succ_pos m)
      rw [List.takeWhile_cons, if_pos ha]
      simp only [List.length_cons, Nat.succ_le_succ_iff] at hm ⊢
      refine ih m hm ?_
      intro k hkm
      simpa using hall (k + 1) (Nat.succ_lt_succ hkm)

theorem find_loop_succ (l : List SubSeq) (inst : Nat) (fuel : Nat)
    (low high : Int) (h : low ≤ high) :
    find_loop l inst (fuel + 1) low high =
      (if inst < (l.getD ((low + high) / 2).toNat default).lower then
         find_loop l inst fuel low ((low + high) / 2 - 1)
       else if (l.getD ((low + high) / 2).toNat default).upper < inst then
         find_loop l inst fuel ((low + high) / 2 + 1) high
       else some ((low + high) / 2).toNat) := by
  rw [find_loop, if_pos h]

theorem locate_loop_succ (l : List SubSeq) (inst : Nat) (fuel : Nat)
    (low high : Int) (h : low ≤ high) :
    locate_loop l inst (fuel + 1) low high =
      (if inst < (l.getD ((low + high) / 2).toNat default).lower then
         locate_loop l inst fuel low ((low + high) / 2 - 1)
       else if (l.getD ((low + high) / 2).toNat default).upper < inst then
         locate_loop l inst fuel ((low + high) / 2 + 1) high
       else ((low + high) / 2).toNat) := by
  rw [locate_loop, if_pos h]

theorem find_loop_hit (l : List SubSeq) (inst : Nat) (hs : seqSorted l)
    (hw : seqWF l) (i : Nat) (hi : i < l.length)
    (hc : containsInst (l.getD i default) inst) :
    ∀ (fuel : Nat) (low high : Int), (high + 1 - low).toNat ≤ fuel →
      0 ≤ low → high ≤ (l.length : Int) - 1 →
      low ≤ (i : Int) → (i : Int) ≤ high →
      find_loop l inst fuel low high = some i := by
  intro fuel
  induction fuel with
  | zero => intro low high hfuel h0 hh hli hih; omega
  | succ fuel ih =>
    intro low high hfuel h0 hh hli hih
    have hlh : low ≤ high := le_trans hli hih
    have hm0 : 0 ≤ (low + high) / 2 := by omega
    have hml : low ≤ (low + high) / 2 := by omega
    have hmh : (low + high) / 2 ≤ high := by omega
    set mid : Int := (low + high) / 2 with hmid
    have hmlen : mid.toNat < l.length := by omega
    rw [getD_eq_getElem l i hi] at hc
    obtain ⟨hcl, hcu⟩ := hc
    rw [find_loop_succ l inst fuel low high hlh, ← hmid,
      getD_eq_getElem l mid.toNat hmlen]
    by_cases h1 : inst < l[mid.toNat].lower
    · rw [if_pos h1]
      have him : i < mid.toNat := by
        by_contra hcon
        push_neg at hcon
        exact absurd (lt_of_le_of_lt (le_trans
          (sorted_lower_mono hs hw hmlen hi hcon) hcl) h1) (lt_irrefl _)
      exact ih low (mid - 1) (by omega) h0 (by omega) hli (by omega)
    · rw [if_neg h1]
      by_cases h2 : l[mid.toNat].upper < inst
      · rw [if_pos h2]
        have him : mid.toNat < i := by
          rcases Nat.lt_or_ge mid.toNat i with h | h
          · exact h
          · exfalso
            rcases Nat.lt_or_ge i mid.toNat with h' | h'
            · have c1 := sorted_rel hs hi hmlen h'
              have c2 := hw _ (List.getElem_mem hmlen)
              omega
            · have : i = mid.toNat := le_antisymm h h'
              subst this
              omega
        exact ih (mid + 1) high (by omega) (by omega) hh (by omega) hih
      · rw [if_neg h2]
        push_neg at h1 h2
        have : mid.toNat = i :=
          contains_unique hs hmlen hi ⟨h1, h2⟩ ⟨hcl, hcu⟩
        rw [this]

theorem find_loop_miss (l : List SubSeq) (inst : Nat)
    (hnone : ∀ k, k < l.length → ¬ containsInst (l.getD k default) inst) :
    ∀ (fuel : Nat) (low high : Int), (high + 1 - low).toNat ≤ fuel →
      0 ≤ low → high ≤ (l.length : Int) - 1 →
      find_loop l inst fuel low high = none := by
  intro fuel
  induction fuel with
  | zero => intro low high _ _ _; rfl
  | succ fuel ih =>
    intro low high hfuel h0 hh
    by_cases hlh : low ≤ high
    · have hm0 : 0 ≤ (low + high) / 2 := by omega
      have hmh : (low + high) / 2 ≤ high := by omega
      have hml : low ≤ (low + high) / 2 := by omega
      set mid : Int := (low + high) / 2 with hmid
      have hmlen : mid.toNat < l.length := by omega
      rw [find_loop_succ l inst fuel low high hlh, ← hmid]
      by_cases h1 : inst < (l.getD mid.toNat default).lower
      · rw [if_pos h1]
        exact ih low (mid - 1) (by omega) h0 (by omega)
      · rw [if_neg h1]
        by_cases h2 : (l.getD mid.toNat default).upper < inst
        · rw [if_pos h2]
          exact ih (mid + 1) high (by omega) (by omega) hh
        · push_neg at h1 h2
          exact absurd ⟨h1, h2⟩ (hnone mid.toNat hmlen)
    · rw [find_loop, if_neg hlh]

theorem locate_loop_hit (l : List SubSeq) (inst : Nat) (hs : seqSorted l)
    (hw : seqWF l) (i : Nat) (hi : i < l.length)
    (hc : containsInst (l.getD i default) inst) :
    ∀ (fuel : Nat) (low high : Int), (high + 1 - low).toNat ≤ fuel →
      0 ≤ low → high ≤ (l.length : Int) - 1 →
      low ≤ (i : Int) → (i : Int) ≤ high →
      locate_loop l inst fuel low high = i := by
  intro fuel
  induction fuel with
  | zero => intro low high hfuel h0 hh hli hih; omega
  | succ fuel ih =>
    intro low high hfuel h0 hh hli hih
    have hlh : low ≤ high := le_trans hli hih
    have hm0 : 0 ≤ (low + high) / 2 := by omega
    have hml : low ≤ (low + high) / 2 := by omega
    have hmh : (low + high) / 2 ≤ high := by omega
    set mid : Int := (low + high) / 2 with hmid
    have hmlen : mid.toNat < l.length := by omega
    rw [getD_eq_getElem l i hi] at hc
    obtain ⟨hcl, hcu⟩ := hc
    rw [locate_loop_succ l inst fuel low high hlh, ← hmid,
      getD_eq_getElem l mid.toNat hmlen]
    by_cases h1 : inst < l[mid.toNat].lower
    · rw [if_pos h1]
      have him : i < mid.toNat := by
        by_contra hcon
        push_neg at hcon
        exact absurd (lt_of_le_of_lt (le_trans
          (sorted_lower_mono hs hw hmlen hi hcon) hcl) h1) (lt_irrefl _)
      exact ih low (mid - 1) (by omega) h0 (by omega) hli (by omega)
    · rw [if_neg h1]
      by_cases h2 : l[mid.toNat].upper < inst
      · rw [if_pos h2]
        have him : mid.toNat < i := by
          rcases Nat.lt_or_ge mid.toNat i with h | h
          · exact h
          · exfalso
            rcases Nat.lt_or_ge i mid.toNat with h' | h'
            · have c1 := sorted_rel hs hi hmlen h'
              have c2 := hw _ (List.getElem_mem hmlen)
              omega
            · have : i = mid.toNat := le_antisymm h h'
              subst this
              omega
        exact ih (mid + 1) high (by omega) (by omega) hh (by omega) hih
      · rw [if_neg h2]
        push_neg at h1 h2
        exact contains_unique hs hmlen hi ⟨h1, h2⟩ ⟨hcl, hcu⟩

theorem insPt_le_length (l : List SubSeq) (inst : Nat) :
    insPt l inst ≤ l.length :=
  takeWhile_length_le _ l

theorem locate_loop_miss (l : List SubSeq) (inst : Nat) (hs : seqSorted l)
    (hw : seqWF l)
    (hnone : ∀ k, k < l.length → ¬ containsInst (l.getD k default) inst) :
    ∀ (fuel : Nat) (low high : Int), (high + 1 - low).toNat ≤ fuel →
      0 ≤ low → high ≤ (l.length : Int) - 1 →
      low ≤ (insPt l inst : Int) → (insPt l inst : Int) ≤ high + 1 →
      locate_loop l inst fuel low high = insPt l inst := by
  intro fuel
  induction fuel with
  | zero => intro low high hfuel h0 hh hlo hhi; simp only [locate_loop]; omega
  | succ fuel ih =>
    intro low high hfuel h0 hh hlo hhi
    by_cases hlh : low ≤ high
    · have hm0 : 0 ≤ (low + high) / 2 := by omega
      have hml : low ≤ (low + high) / 2 := by omega
      have hmh : (low + high) / 2 ≤ high := by omega
      set mid : Int := (low + high) / 2 with hmid
      have hmlen : mid.toNat < l.length := by omega
      rw [locate_loop_succ l inst fuel low high hlh, ← hmid]
      by_cases h1 : inst < (l.getD mid.toNat default).lower
      · rw [if_pos h1]
        -- the mid entry is not in the takeWhile prefix
        have hstop : insPt l inst ≤ mid.toNat := by
          by_contra hcon
          push_neg at hcon
          unfold insPt at hcon
          have := takeWhile_getD_true (fun s => decide (s.upper < inst)) l
            mid.toNat hcon
          simp only [decide_eq_true_eq] at this
          have hwm := hw _ (getD_mem l mid.toNat hmlen)
          omega
        exact ih low (mid - 1) (by omega) h0 (by omega) hlo (by omega)
      · rw [if_neg h1]
        by_cases h2 : (l.getD mid.toNat default).upper < inst
        · rw [if_pos h2]
          -- every entry up to mid is in the takeWhile prefix
          have hgo : mid.toNat + 1 ≤ insPt l inst := by
            unfold insPt
            refine takeWhile_length_ge _ l (mid.toNat + 1) (by omega) ?_
            intro k hk
            have hkl : k < l.length := by omega
            simp only [decide_eq_true_eq]
            rcases Nat.lt_or_ge k mid.toNat with h' | h'
            · have c1 : (l.getD k default).upper < (l.getD mid.toNat default).lower := by
                rw [getD_eq_getElem l k hkl, getD_eq_getElem l mid.toNat hmlen]
                exact sorted_rel hs hkl hmlen h'
              have c2 := hw _ (getD_mem l mid.toNat hmlen)
              omega
            · have : k = mid.toNat := by omega
              subst this
              exact h2
          exact ih (mid + 1) high (by omega) (by omega) hh (by omega) hhi
        · push_neg at h1 h2
          exact absurd ⟨h1, h2⟩ (hnone mid.toNat hmlen)
    · rw [locate_loop, if_neg hlh]
      omega

theorem find_subseq_of_contains (ns : NameSeq) (inst : Nat)
    (hs : seqSorted ns.sseqs) (hw : seqWF ns.sseqs) (i : Nat)
    (hi : i < ns.sseqs.length)
    (hc : containsInst (ns.sseqs.getD i default) inst) :
    nameseq_find_subseq ns inst = some i := by
  unfold nameseq_find_subseq
  exact find_loop_hit _ inst hs hw i hi hc _ 0 _ (by omega) (by omega)
    (by omega) (by omega) (by omega)

theorem find_subseq_of_none (ns : NameSeq) (inst : Nat)
    (hnone : ∀ k, k < ns.sseqs.length →
      ¬ containsInst (ns.sseqs.getD k default) inst) :
    nameseq_find_subseq ns inst = none := by
  unfold nameseq_find_subseq
  exact find_loop_miss _ inst hnone _ 0 _ (by omega) (by omega) (by omega)

theorem find_subseq_some_iff (ns : NameSeq) (inst : Nat)
    (hs : seqSorted ns.sseqs) (hw : seqWF ns.sseqs) (i : Nat) :
    nameseq_find_subseq ns inst = some i ↔
      i < ns.sseqs.length ∧ containsInst (ns.sseqs.getD i default) inst := by
  constructor
  · intro h
    by_cases hex : ∃ k, k < ns.sseqs.length ∧
        containsInst (ns.sseqs.getD k default) inst
    · obtain ⟨k, hk, hck⟩ := hex
      rw [find_subseq_of_contains ns inst hs hw k hk hck] at h
      injection h with h
      subst h
      exact ⟨hk, hck⟩
    · push_neg at hex
      rw [find_subseq_of_none ns inst hex] at h
      cases h
  · intro ⟨hi, hc⟩
    exact find_subseq_of_contains ns inst hs hw i hi hc

theorem find_subseq_none_iff (ns : NameSeq) (inst : Nat)
    (hs : seqSorted ns.sseqs) (hw : seqWF ns.sseqs) :
    nameseq_find_subseq ns inst = none ↔
      ∀ k, k < ns.sseqs.length →
        ¬ containsInst (ns.sseqs.getD k default) inst := by
  constructor
  · intro h k hk hck
    rw [find_subseq_of_contains ns inst hs hw k hk hck] at h
    cases h
  · exact find_subseq_of_none ns inst

theorem locate_subseq_of_contains (ns : NameSeq) (inst : Nat)
    (hs : seqSorted ns.sseqs) (hw : seqWF ns.sseqs) (i : Nat)
    (hi : i < ns.sseqs.length)
    (hc : containsInst (ns.sseqs.getD i default) inst) :
    nameseq_locate_subseq ns inst = i := by
  unfold nameseq_locate_subseq
  exact locate_loop_hit _ inst hs hw i hi hc _ 0 _ (by omega) (by omega)
    (by omega) (by omega) (by omega)

theorem locate_subseq_of_none (ns : NameSeq) (inst : Nat)
    (hs : seqSorted ns.sseqs) (hw : seqWF ns.sseqs)
    (hnone : ∀ k, k < ns.sseqs.length →
      ¬ containsInst (ns.sseqs.getD k default) inst) :
    nameseq_locate_subseq ns inst = insPt ns.sseqs inst := by
  unfold nameseq_locate_subseq
  have hle := insPt_le_length ns.sseqs inst
  exact locate_loop_miss _ inst hs hw hnone _ 0 _ (by omega) (by omega)
    (by omega) (by omega) (by omega)

/-- Entries strictly before the insertion point end strictly before the
instance value. -/
theorem insPt_left (l : List SubSeq) (inst : Nat) (k : Nat)
    (hk : k < insPt l inst) : (l.getD k default).upper < inst := by
  unfold insPt at hk
  have := takeWhile_getD_true (fun s => decide (s.upper < inst)) l k hk
  simpa using this

/-- On a miss, every entry at or after the insertion point begins strictly
after the instance value. -/
theorem insPt_right (l : List SubSeq) (inst : Nat) (hs : seqSorted l)
    (hw : seqWF l)
    (hnone : ∀ k, k < l.length → ¬ containsInst (l.getD k default) inst)
    (k : Nat) (hk1 : insPt l inst ≤ k) (hk2 : k < l.length) :
    inst < (l.getD k default).lower := by
  have hlt : insPt l inst < l.length := lt_of_le_of_lt hk1 hk2
  have hstop := takeWhile_getD_stop (fun s => decide (s.upper < inst)) l
    (by unfold insPt at hlt; exact hlt)
  simp only [decide_eq_false_iff_not, not_lt] at hstop
  have hnc := hnone (insPt l inst) hlt
  unfold containsInst at hnc
  push_neg at hnc
  have h1 : inst < (l.getD (insPt l inst) default).lower := by
    rcases Nat.lt_or_ge inst (l.getD (insPt l inst) default).lower with h | h
    · exact h
    · exact absurd (hnc h) (not_lt.mpr hstop)
  rcases Nat.eq_or_lt_of_le hk1 with h | h
  · rw [← h]; exact h1
  · have hmono : (l.getD (insPt l inst) default).lower ≤ (l.getD k default).lower := by
      rw [getD_eq_getElem l _ hlt, getD_eq_getElem l k hk2]
      exact sorted_lower_mono hs hw hlt hk2 (le_of_lt h)
    exact lt_of_lt_of_le h1 hmono

/-! Pairwise preservation for the array mutations. -/

theorem mem_listInsertAt {α : Type} (x a : α) :
    ∀ (n : Nat) (l : List α), a ∈ listInsertAt n x l ↔ a = x ∨ a ∈ l := by
  intro n
  induction n with
  | zero =>
    intro l
    simp [listInsertAt, or_comm, eq_comm, or_left_comm]
  | succ n ih =>
    intro l
    cases l with
    | nil => simp [listInsertAt, eq_comm]
    | cons b t =>
      rw [listInsertAt]
      simp only [List.mem_cons, ih t]
      tauto

theorem length_listInsertAt {α : Type} (x : α) :
    ∀ (n : Nat) (l : List α), n ≤ l.length →
      (listInsertAt n x l).length = l.length + 1 := by
  intro n
  induction n with
  | zero => intro l _; simp [listInsertAt]
  | succ n ih =>
    intro l hn
    cases l with
    | nil => simp at hn
    | cons b t =>
      rw [listInsertAt]
      simp only [List.length_cons] at hn ⊢
      rw [ih t (Nat.succ_le_succ_iff.mp hn)]

theorem getD_listInsertAt_lt {α : Type} [Inhabited α] (x : α) :
    ∀ (n : Nat) (l : List α) (k : Nat), k < n → n ≤ l.length →
      (listInsertAt n x l).getD k default = l.getD k default := by
  intro n
  induction n with
  | zero => intro l k hk; omega
  | succ n ih =>
    intro l k hk hn
    cases l with
    | nil => simp at hn
    | cons b t =>
      rw [listInsertAt]
      rcases k with _ | k
      · simp
      · simp only [List.getD_cons_succ]
        exact ih t k (Nat.succ_lt_succ_iff.mp hk) (by simpa using hn)

theorem getD_listInsertAt_self {α : Type} [Inhabited α] (x : α) :
    ∀ (n : Nat) (l : List α), n ≤ l.length →
      (listInsertAt n x l).getD n default = x := by
  intro n
  induction n with
  | zero => intro l _; simp [listInsertAt]
  | succ n ih =>
    intro l hn
    cases l with
    | nil => simp at hn
    | cons b t =>
      rw [listInsertAt]
      simp only [List.getD_cons_succ]
      exact ih t (by simpa using hn)

theorem getD_listInsertAt_gt {α : Type} [Inhabited α] (x : α) :
    ∀ (n : Nat) (l : List α) (k : Nat), n < k → n ≤ l.length →
      (listInsertAt n x l).getD k default = l.getD (k - 1) default := by
  intro n
  induction n with
  | zero =>
    intro l k hk _
    rcases k with _ | k
    · omega
    · simp [listInsertAt]
  | succ n ih =>
    intro l k hk hn
    cases l with
    | nil => simp at hn
    | cons b t =>
      rw [listInsertAt]
      rcases k with _ | k
      · omega
      · simp only [List.getD_cons_succ]
        rw [ih t k (Nat.succ_lt_succ_iff.mp hk) (by simpa using hn)]
        rcases k with _ | k
        · omega
        · simp

theorem pairwise_listInsertAt {α : Type} [Inhabited α] {R : α → α → Prop} :
    ∀ (l : List α) (n : Nat) (x : α), n ≤ l.length → l.Pairwise R →
      (∀ k, k < n → R (l.getD k default) x) →
      (∀ k, n ≤ k → k < l.length → R x (l.getD k default)) →
      (listInsertAt n x l).Pairwise R := by
  intro l
  induction l with
  | nil =>
    intro n x hn _ _ _
    rcases n with _ | n
    · simp [listInsertAt]
    · simp at hn
  | cons a t ih =>
    intro n x hn hp hbefore hafter
    rcases List.pairwise_cons.mp hp with ⟨ha, hpt⟩
    rcases n with _ | n
    · refine List.pairwise_cons.mpr ⟨?_, hp⟩
      intro b hb
      rcases List.mem_iff_getElem.mp hb with ⟨k, hk, rfl⟩
      have := hafter k (Nat.zero_le k) hk
      rwa [getD_eq_getElem _ k hk] at this
    · rw [listInsertAt]
      refine List.pairwise_cons.mpr ⟨?_, ?_⟩
      · intro b hb
        rcases (mem_listInsertAt x b n t).mp hb with rfl | hbt
        · simpa using hbefore 0 (Nat.succ_pos n)
        · exact ha b hbt
      · refine ih n x (by simpa using hn) hpt ?_ ?_
        · intro k hk
          simpa using hbefore (k + 1) (Nat.succ_lt_succ hk)
        · intro k hk1 hk2
          simpa using hafter (k + 1) (Nat.succ_le_succ hk1)
            (by simpa using Nat.succ_lt_succ hk2)

theorem pairwise_set {α : Type} [Inhabited α] {R : α → α → Prop} :
    ∀ (l : List α) (j : Nat) (y : α), j < l.length → l.Pairwise R →
      (∀ k, k < j → R (l.getD k default) y) →
      (∀ k, j < k → k < l.length → R y (l.getD k default)) →
      (l.set j y).Pairwise R := by
  intro l
  induction l with
  | nil => intro j y hj; simp at hj
  | cons a t ih =>
    intro j y hj hp hbefore hafter
    rcases List.pairwise_cons.mp hp with ⟨ha, hpt⟩
    rcases j with _ | j
    · rw [List.set_cons_zero]
      refine List.pairwise_cons.mpr ⟨?_, hpt⟩
      intro b hb
      rcases List.mem_iff_getElem.mp hb with ⟨k, hk, rfl⟩
      have := hafter (k + 1) (Nat.succ_pos k) (by simpa using Nat.succ_lt_succ hk)
      rw [List.getD_cons_succ, getD_eq_getElem _ k hk] at this
      exact this
    · rw [List.set_cons_succ]
      refine List.pairwise_cons.mpr ⟨?_, ?_⟩
      · intro b hb
        rcases List.mem_or_eq_of_mem_set hb with hbt | rfl
        · exact ha b hbt
        · simpa using hbefore 0 (Nat.succ_pos j)
      · refine ih j y (by simpa using hj) hpt ?_ ?_
        · intro k hk
          simpa using hbefore (k + 1) (Nat.succ_lt_succ hk)
        · intro k hk1 hk2
          simpa using hafter (k + 1) (Nat.succ_lt_succ hk1)
            (by simpa using Nat.succ_lt_succ hk2)

theorem firstSatIdx_eq_some_iff {α : Type} [Inhabited α] (P : α → Bool) :
    ∀ (l : List α) (i : Nat),
      firstSatIdx P l = some i ↔
        i < l.length ∧ P (l.getD i default) = true ∧
          ∀ k, k < i → P (l.getD k default) = false := by
  intro l
  induction l with
  | nil => intro i; simp [firstSatIdx]
  | cons a t ih =>
    intro i
    rw [firstSatIdx]
    by_cases ha : P a
    · rw [if_pos ha]
      constructor
      · intro h
        injection h with h
        subst h
        exact ⟨Nat.succ_pos _, by simpa using ha, fun k hk => absurd hk (Nat.not_lt_zero k)⟩
      · intro ⟨hi, hP, hmin⟩
        rcases i with _ | i
        · rfl
        · exact absurd (by simpa using hmin 0 (Nat.succ_pos i)) (by simpa using ha)
    · rw [if_neg ha]
      constructor
      · intro h
        rcases hmap : firstSatIdx P t with _ | j
        · rw [hmap] at h; cases h
        · rw [hmap] at h
          injection h with h
          subst h
          obtain ⟨hj, hPj, hminj⟩ := (ih j).mp hmap
          refine ⟨by simpa using Nat.succ_lt_succ hj, by simpa using hPj, ?_⟩
          intro k hk
          rcases k with _ | k
          · simpa using ha
          · simpa using hminj k (Nat.succ_lt_succ_iff.mp hk)
      · intro ⟨hi, hP, hmin⟩
        rcases i with _ | i
        · exact absurd (by simpa using hP) ha
        · have := (ih i).mpr ⟨by simpa using hi, by simpa using hP,
            fun k hk => by simpa using hmin (k + 1) (Nat.succ_lt_succ hk)⟩
          rw [this]
          rfl

theorem firstSatIdx_eq_none_iff {α : Type} [Inhabited α] (P : α → Bool) :
    ∀ (l : List α), firstSatIdx P l = none ↔
      ∀ k, k < l.length → P (l.getD k default) = false := by
  intro l
  induction l with
  | nil => simp [firstSatIdx]
  | cons a t ih =>
    rw [firstSatIdx]
    by_cases ha : P a
    · rw [if_pos ha]
      constructor
      · intro h; cases h
      · intro h
        exact absurd (by simpa using h 0 (Nat.succ_pos _)) (by simpa using ha)
    · rw [if_neg ha]
      constructor
      · intro h k hk
        rcases k with _ | k
        · simpa using ha
        · rcases hmap : firstSatIdx P t with _ | j
          · simpa using (ih.mp hmap) k (Nat.succ_lt_succ_iff.mp hk)
          · rw [hmap] at h; cases h
      · intro h
        have : firstSatIdx P t = none := by
          rw [ih]
          intro k hk
          simpa using h (k + 1) (Nat.succ_lt_succ hk)
        rw [this]
        rfl

theorem seqSorted_of_parts {l : List SubSeq}
    (hlt : l.Pairwise fun a b => a.lower < b.lower)
    (hd : l.Pairwise rangeDisjoint) (hw : seqWF l) : seqSorted l := by
  refine List.Pairwise.imp_of_mem ?_ (hlt.and hd)
  intro a b ha hb hab
  rcases hab with ⟨hab1, hab2 | hab2⟩
  · exact hab2
  · exact absurd (lt_trans hab1 (lt_of_le_of_lt (hw b hb) hab2)) (lt_irrefl _)

/-- The tie-break of claim C9 written out as stated: the containing index
when one exists, else the lowest index in scan order satisfying
sseq.lower ≤ instance, else the array length. -/
def locateClaimIdx (l : List SubSeq) (inst : Nat) : Nat :=
  match firstSatIdx (fun s => decide (containsInst s inst)) l with
  | some i => i
  | none =>
    match firstSatIdx (fun s => decide (s.lower ≤ inst)) l with
    | some i => i
    | none => l.length

/-- The corrected tie-break: the containing index when one exists, else
the lowest index in scan order satisfying instance < sseq.lower, else the
array length. -/
def locateAmendedIdx (l : List SubSeq) (inst : Nat) : Nat :=
  match firstSatIdx (fun s => decide (containsInst s inst)) l with
  | some i => i
  | none =>
    match firstSatIdx (fun s => decide (inst < s.lower)) l with
    | some i => i
    | none => l.length

/-- A one-entry sorted, disjoint name sequence used as the C9
counterexample input. -/
def c9seq : NameSeq :=
  ⟨1, [⟨10, 12, ⟨[], [⟨1, 10, 12, 3, 2, 30, 1⟩]⟩⟩], 1, []⟩

/-- C9 counterexample: on the sorted, disjoint, well-formed one-entry
array [10,12] and instance 5 (contained in no sub-sequence),
nameseq_locate_subseq returns 0, while the tie-break stated by the claim
("lowest index satisfying sseq.lower ≤ instance, else the array length")
gives 1, so the claim is false as stated. -/
theorem C9_counterexample :
    (c9seq.sseqs.Pairwise fun a b => a.lower < b.lower) ∧
    c9seq.sseqs.Pairwise rangeDisjoint ∧ seqWF c9seq.sseqs ∧
    (∀ k, k < c9seq.sseqs.length →
      ¬ containsInst (c9seq.sseqs.getD k default) 5) ∧
    nameseq_locate_subseq c9seq 5 = 0 ∧ locateClaimIdx c9seq.sseqs 5 = 1 := by
  decide

/-- C9 (amended): for every name sequence whose live sub-sequence array is
sorted strictly ascending by lower with pairwise disjoint well-formed
ranges, nameseq_locate_subseq returns the index of the sub-sequence
containing the instance when one exists, and otherwise the insertion
index, which is the lowest index in scan order satisfying
instance < sseq.lower, else the array length. -/
theorem C9_locate_subseq_characterization (ns : NameSeq) (inst : Nat)
    (hlt : ns.sseqs.Pairwise fun a b => a.lower < b.lower)
    (hd : ns.sseqs.Pairwise rangeDisjoint) (hw : seqWF ns.sseqs) :
    nameseq_locate_subseq ns inst = locateAmendedIdx ns.sseqs inst := by
  have hs : seqSorted ns.sseqs := seqSorted_of_parts hlt hd hw
  by_cases hex : ∃ i, i < ns.sseqs.length ∧
      containsInst (ns.sseqs.getD i default) inst
  · obtain ⟨i, hi, hc⟩ := hex
    rw [locate_subseq_of_contains ns inst hs hw i hi hc]
    unfold locateAmendedIdx
    have h1 : firstSatIdx (fun s => decide (containsInst s inst)) ns.sseqs
        = some i := by
      rw [firstSatIdx_eq_some_iff]
      refine ⟨hi, by simpa using hc, ?_⟩
      intro k hk
      simp only [decide_eq_false_iff_not]
      intro hck
      have hkl : k < ns.sseqs.length := lt_trans hk hi
      rw [getD_eq_getElem _ k hkl] at hck
      rw [getD_eq_getElem _ i hi] at hc
      exact absurd (contains_unique hs hkl hi hck hc) (Nat.ne_of_lt hk)
    rw [h1]
  · push_neg at hex
    have hnone : ∀ k, k < ns.sseqs.length →
        ¬ containsInst (ns.sseqs.getD k default) inst := hex
    rw [locate_subseq_of_none ns inst hs hw hnone]
    unfold locateAmendedIdx
    have h1 : firstSatIdx (fun s => decide (containsInst s inst)) ns.sseqs
        = none := by
      rw [firstSatIdx_eq_none_iff]
      intro k hk
      simpa using hnone k hk
    rw [h1]
    have hle := insPt_le_length ns.sseqs inst
    by_cases hlen : insPt ns.sseqs inst < ns.sseqs.length
    · have h2 : firstSatIdx (fun s => decide (inst < s.lower)) ns.sseqs
          = some (insPt ns.sseqs inst) := by
        rw [firstSatIdx_eq_some_iff]
        refine ⟨hlen, ?_, ?_⟩
        · simpa using insPt_right ns.sseqs inst hs hw hnone _
            (le_refl _) hlen
        · intro k hk
          simp only [decide_eq_false_iff_not, not_lt]
          have h3 := insPt_left ns.sseqs inst k hk
          have h4 := hw _ (getD_mem _ k (lt_trans hk hlen))
          omega
      rw [h2]
    · have heq : insPt ns.sseqs inst = ns.sseqs.length := by omega
      have h2 : firstSatIdx (fun s => decide (inst < s.lower)) ns.sseqs
          = none := by
        rw [firstSatIdx_eq_none_iff]
        intro k hk
        simp only [decide_eq_false_iff_not, not_lt]
        have h3 := insPt_left ns.sseqs inst k (by omega)
        have h4 := hw _ (getD_mem _ k hk)
        omega
      rw [h2, heq]

/-- C9 witness: the amended characterization applied at a concrete sorted
two-entry array and a concrete instance value. -/
theorem C9_witness :
    nameseq_locate_subseq ⟨1, [⟨0, 0, ⟨[], []⟩⟩, ⟨10, 10, ⟨[], []⟩⟩], 2, []⟩ 5 =
      locateAmendedIdx [⟨0, 0, ⟨[], []⟩⟩, ⟨10, 10, ⟨[], []⟩⟩] 5 :=
  C9_locate_subseq_characterization
    ⟨1, [⟨0, 0, ⟨[], []⟩⟩, ⟨10, 10, ⟨[], []⟩⟩], 2, []⟩ 5
    (by decide) (by decide) (by decide)

/-! Branch lemmas for the publish and withdraw operations. -/

theorem insert_publ_not_exact (own : Nat) (plan : AllocPlan) (nseq : NameSeq)
    (ptype lower upper scope node port key j : Nat)
    (hfind : nameseq_find_subseq nseq lower = some j)
    (hne : ¬ ((nseq.sseqs.getD j default).lower = lower ∧
      (nseq.sseqs.getD j default).upper = upper)) :
    tipc_nameseq_insert_publ own plan nseq ptype lower upper scope node port key
      = (none, nseq, []) := by
  unfold tipc_nameseq_insert_publ
  simp only [hfind]
  rw [if_pos (by tauto)]

theorem insert_publ_dup (own : Nat) (plan : AllocPlan) (nseq : NameSeq)
    (ptype lower upper scope node port key j : Nat)
    (hfind : nameseq_find_subseq nseq lower = some j)
    (hexact : (nseq.sseqs.getD j default).lower = lower ∧
      (nseq.sseqs.getD j default).upper = upper)
    (hdup : (nseq.sseqs.getD j default).info.all_publ.any
      (dupMatch port key node) = true) :
    tipc_nameseq_insert_publ own plan nseq ptype lower upper scope node port key
      = (none, nseq, []) := by
  unfold tipc_nameseq_insert_publ
  simp only [hfind]
  rw [if_neg (by tauto), if_pos hdup]

theorem insert_publ_exact_ok (own : Nat) (plan : AllocPlan) (nseq : NameSeq)
    (ptype lower upper scope node port key j : Nat)
    (hfind : nameseq_find_subseq nseq lower = some j)
    (hexact : (nseq.sseqs.getD j default).lower = lower ∧
      (nseq.sseqs.getD j default).upper = upper)
    (hdup : (nseq.sseqs.getD j default).info.all_publ.any
      (dupMatch port key node) = false)
    (hpub : plan.publOk = true) :
    tipc_nameseq_insert_publ own plan nseq ptype lower upper scope node port key
      = (some (publ_create ptype lower upper scope node port key),
         seqSetInfo nseq j
           ⟨if in_own_node own node then
              publ_create ptype lower upper scope node port key ::
                (nseq.sseqs.getD j default).info.local_publ
            else (nseq.sseqs.getD j default).info.local_publ,
            publ_create ptype lower upper scope node port key ::
              (nseq.sseqs.getD j default).info.all_publ⟩,
         reportEvents nseq.subscriptions .published
           (publ_create ptype lower upper scope node port key) false) := by
  unfold tipc_nameseq_insert_publ seqSetInfo
  simp only [hfind]
  rw [if_neg (by tauto), if_neg (by rw [hdup]; simp), if_pos hpub]

theorem insert_publ_overlap (own : Nat) (plan : AllocPlan) (nseq : NameSeq)
    (ptype lower upper scope node port key : Nat)
    (hfind : nameseq_find_subseq nseq lower = none)
    (hov : nameseq_locate_subseq nseq lower < nseq.sseqs.length ∧
      (nseq.sseqs.getD (nameseq_locate_subseq nseq lower) default).lower ≤ upper) :
    tipc_nameseq_insert_publ own plan nseq ptype lower upper scope node port key
      = (none, nseq, []) := by
  unfold tipc_nameseq_insert_publ
  simp only [hfind]
  rw [if_pos hov]

theorem listInsertAt_set_self {α : Type} (x y : α) :
    ∀ (n : Nat) (l : List α), n ≤ l.length →
      (listInsertAt n x l).set n y = listInsertAt n y l := by
  intro n
  induction n with
  | zero => intro l _; simp [listInsertAt]
  | succ n ih =>
    intro l hn
    cases l with
    | nil => simp at hn
    | cons b t =>
      rw [listInsertAt, listInsertAt, List.set_cons_succ]
      rw [ih t (by simpa using hn)]

theorem locate_loop_le_length (l : List SubSeq) (inst : Nat) :
    ∀ (fuel : Nat) (low high : Int), 0 ≤ low →
      high ≤ (l.length : Int) - 1 → low ≤ (l.length : Int) →
      (locate_loop l inst fuel low high : Int) ≤ (l.length : Int) := by
  intro fuel
  induction fuel with
  | zero => intro low high h0 hh hl; simp only [locate_loop]; omega
  | succ fuel ih =>
    intro low high h0 hh hl
    by_cases hlh : low ≤ high
    · have hm0 : 0 ≤ (low + high) / 2 := by omega
      have hmh : (low + high) / 2 ≤ high := by omega
      have hml : low ≤ (low + high) / 2 := by omega
      set mid : Int := (low + high) / 2 with hmid
      rw [locate_loop_succ l inst fuel low high hlh, ← hmid]
      by_cases h1 : inst < (l.getD mid.toNat default).lower
      · rw [if_pos h1]
        exact ih low (mid - 1) h0 (by omega) hl
      · rw [if_neg h1]
        by_cases h2 : (l.getD mid.toNat default).upper < inst
        · rw [if_pos h2]
          exact ih (mid + 1) high (by omega) hh (by omega)
        · rw [if_neg h2]; omega
    · rw [locate_loop, if_neg hlh]; omega

theorem locate_le_length (ns : NameSeq) (inst : Nat) :
    nameseq_locate_subseq ns inst ≤ ns.sseqs.length := by
  unfold nameseq_locate_subseq
  have := locate_loop_le_length ns.sseqs inst (ns.sseqs.length + 1) 0
    ((ns.sseqs.length : Int) - 1) (by omega) (by omega) (by omega)
  omega

theorem insert_publ_new (own : Nat) (plan : AllocPlan) (nseq : NameSeq)
    (ptype lower upper scope node port key : Nat)
    (hfind : nameseq_find_subseq nseq lower = none)
    (hov : ¬ (nameseq_locate_subseq nseq lower < nseq.sseqs.length ∧
      (nseq.sseqs.getD (nameseq_locate_subseq nseq lower) default).lower ≤ upper))
    (hgrow : (nseq.sseqs.length == nseq.alloc) = true → plan.growOk = true)
    (hinfo : plan.infoOk = true)
    (hpub : plan.publOk = true) :
    tipc_nameseq_insert_publ own plan nseq ptype lower upper scope node port key
      = (some (publ_create ptype lower upper scope node port key),
         { nseq with
           sseqs := listInsertAt (nameseq_locate_subseq nseq lower)
             ⟨lower, upper,
              ⟨if in_own_node own node then
                 [publ_create ptype lower upper scope node port key]
               else [],
               [publ_create ptype lower upper scope node port key]⟩⟩
             nseq.sseqs
           alloc := if nseq.sseqs.length == nseq.alloc then nseq.alloc * 2
             else nseq.alloc },
         reportEvents nseq.subscriptions .published
           (publ_create ptype lower upper scope node port key) true) := by
  unfold tipc_nameseq_insert_publ
  simp only [hfind]
  rw [if_neg hov]
  have hins := locate_le_length nseq lower
  by_cases hla : (nseq.sseqs.length == nseq.alloc) = true
  · rw [if_pos hla, hgrow hla, if_pos rfl]
    simp only []
    rw [if_pos hinfo, if_pos hpub]
    simp only [listInsertAt_set_self _ _ _ _ hins]
    rw [if_pos hla]
  · rw [if_neg hla]
    simp only []
    rw [if_pos hinfo, if_pos hpub]
    simp only [listInsertAt_set_self _ _ _ _ hins]
    rw [if_neg hla]

theorem remove_publ_no_subseq (own : Nat) (nseq : NameSeq)
    (inst node port key : Nat)
    (hfind : nameseq_find_subseq nseq inst = none) :
    tipc_nameseq_remove_publ own nseq inst node port key = (none, nseq, []) := by
  unfold tipc_nameseq_remove_publ
  simp only [hfind]

theorem remove_publ_not_found (own : Nat) (nseq : NameSeq)
    (inst node port key j : Nat)
    (hfind : nameseq_find_subseq nseq inst = some j)
    (hmatch : (nseq.sseqs.getD j default).info.all_publ.find?
      (withdrawMatch key port node) = none) :
    tipc_nameseq_remove_publ own nseq inst node port key = (none, nseq, []) := by
  unfold tipc_nameseq_remove_publ
  simp only [hfind, hmatch]

theorem remove_publ_last (own : Nat) (nseq : NameSeq)
    (inst node port key j : Nat) (p : Publication)
    (hfind : nameseq_find_subseq nseq inst = some j)
    (hmatch : (nseq.sseqs.getD j default).info.all_publ.find?
      (withdrawMatch key port node) = some p)
    (hempty : (nseq.sseqs.getD j default).info.all_publ.erase p = []) :
    tipc_nameseq_remove_publ own nseq inst node port key
      = (some p, { nseq with sseqs := nseq.sseqs.eraseIdx j },
         reportEvents nseq.subscriptions .withdrawn p true) := by
  unfold tipc_nameseq_remove_publ
  simp only [hfind, hmatch]
  rw [if_pos hempty]

theorem remove_publ_keep (own : Nat) (nseq : NameSeq)
    (inst node port key j : Nat) (p : Publication)
    (hfind : nameseq_find_subseq nseq inst = some j)
    (hmatch : (nseq.sseqs.getD j default).info.all_publ.find?
      (withdrawMatch key port node) = some p)
    (hne : (nseq.sseqs.getD j default).info.all_publ.erase p ≠ []) :
    tipc_nameseq_remove_publ own nseq inst node port key
      = (some p,
         seqSetInfo nseq j
           ⟨if in_own_node own node then
              (nseq.sseqs.getD j default).info.local_publ.erase p
            else (nseq.sseqs.getD j default).info.local_publ,
            (nseq.sseqs.getD j default).info.all_publ.erase p⟩,
         reportEvents nseq.subscriptions .withdrawn p false) := by
  unfold tipc_nameseq_remove_publ seqSetInfo
  simp only [hfind, hmatch]
  rw [if_neg hne]

theorem tbl_insert_invalid (own : Nat) (plan : AllocPlan) (tbl : NameTable)
    (ptype lower upper scope node port key : Nat)
    (h : TIPC_NODE_SCOPE < scope ∨ upper < lower) :
    tipc_nametbl_insert_publ own plan tbl ptype lower upper scope node port key
      = (none, tbl, []) := by
  unfold tipc_nametbl_insert_publ
  rw [if_pos h]

theorem tbl_insert_existing (own : Nat) (plan : AllocPlan) (tbl : NameTable)
    (ptype lower upper scope node port key i : Nat)
    (hvalid : ¬ (TIPC_NODE_SCOPE < scope ∨ upper < lower))
    (hfind : nametbl_find_seq tbl ptype = some i) :
    tipc_nametbl_insert_publ own plan tbl ptype lower upper scope node port key
      = ((tipc_nameseq_insert_publ own plan (tbl.seqs.getD i default)
            ptype lower upper scope node port key).1,
         ⟨tbl.seqs.set i (tipc_nameseq_insert_publ own plan
            (tbl.seqs.getD i default)
            ptype lower upper scope node port key).2.1,
          tbl.local_publ_count⟩,
         (tipc_nameseq_insert_publ own plan (tbl.seqs.getD i default)
            ptype lower upper scope node port key).2.2) := by
  unfold tipc_nametbl_insert_publ
  rw [if_neg hvalid]
  simp only [hfind]

theorem tbl_insert_fresh (own : Nat) (plan : AllocPlan) (tbl : NameTable)
    (ptype lower upper scope node port key : Nat)
    (hvalid : ¬ (TIPC_NODE_SCOPE < scope ∨ upper < lower))
    (hfind : nametbl_find_seq tbl ptype = none)
    (hplan : plan.nseqOk = true) :
    tipc_nametbl_insert_publ own plan tbl ptype lower upper scope node port key
      = ((tipc_nameseq_insert_publ own plan (tipc_nameseq_create ptype)
            ptype lower upper scope node port key).1,
         { tbl with seqs :=
            (tipc_nameseq_insert_publ own plan (tipc_nameseq_create ptype)
              ptype lower upper scope node port key).2.1 :: tbl.seqs },
         (tipc_nameseq_insert_publ own plan (tipc_nameseq_create ptype)
            ptype lower upper scope node port key).2.2) := by
  unfold tipc_nametbl_insert_publ
  rw [if_neg hvalid]
  simp only [hfind]
  rw [if_pos hplan]

theorem tbl_remove_no_seq (own : Nat) (tbl : NameTable)
    (ptype lower node port key : Nat)
    (hfind : nametbl_find_seq tbl ptype = none) :
    tipc_nametbl_remove_publ own tbl ptype lower node port key
      = (none, tbl, []) := by
  unfold tipc_nametbl_remove_publ
  simp only [hfind]

theorem tbl_remove_found (own : Nat) (tbl : NameTable)
    (ptype lower node port key i : Nat)
    (hfind : nametbl_find_seq tbl ptype = some i) :
    tipc_nametbl_remove_publ own tbl ptype lower node port key
      = (if ((tipc_nameseq_remove_publ own (tbl.seqs.getD i default)
              lower node port key).2.1.sseqs.length = 0 ∧
            (tipc_nameseq_remove_publ own (tbl.seqs.getD i default)
              lower node port key).2.1.subscriptions = []) then
           ((tipc_nameseq_remove_publ own (tbl.seqs.getD i default)
              lower node port key).1,
            { tbl with seqs := tbl.seqs.eraseIdx i },
            (tipc_nameseq_remove_publ own (tbl.seqs.getD i default)
              lower node port key).2.2)
         else
           ((tipc_nameseq_remove_publ own (tbl.seqs.getD i default)
              lower node port key).1,
            ⟨tbl.seqs.set i (tipc_nameseq_remove_publ own
               (tbl.seqs.getD i default) lower node port key).2.1,
             tbl.local_publ_count⟩,
            (tipc_nameseq_remove_publ own (tbl.seqs.getD i default)
              lower node port key).2.2)) := by
  unfold tipc_nametbl_remove_publ
  simp only [hfind]

/-! Evaluation of a publish into an empty table and of translate on the
resulting one-binding table. -/

theorem nameseq_insert_fresh (own : Nat) (ptype lower upper scope node port key : Nat) :
    tipc_nameseq_insert_publ own .ok (tipc_nameseq_create ptype)
        ptype lower upper scope node port key
      = (some (publ_create ptype lower upper scope node port key),
         ⟨ptype, [⟨lower, upper,
            ⟨if in_own_node own node then
               [publ_create ptype lower upper scope node port key]
             else [],
             [publ_create ptype lower upper scope node port key]⟩⟩], 1, []⟩,
         []) := by
  have hf : nameseq_find_subseq (tipc_nameseq_create ptype) lower = none := rfl
  have hov : ¬ (nameseq_locate_subseq (tipc_nameseq_create ptype) lower <
      (tipc_nameseq_create ptype).sseqs.length ∧
      ((tipc_nameseq_create ptype).sseqs.getD
        (nameseq_locate_subseq (tipc_nameseq_create ptype) lower)
        default).lower ≤ upper) := by
    intro h
    exact absurd h.1 (Nat.not_lt_zero _)
  rw [insert_publ_new own .ok _ ptype lower upper scope node port key hf hov
    (fun _ => rfl) rfl rfl]
  rfl

theorem publish_empty (own maxPubl ptype lower upper scope port key : Nat)
    (h1 : lower ≤ upper) (h2 : scope ≤ TIPC_NODE_SCOPE) (h3 : 0 < maxPubl) :
    tipc_nametbl_publish own maxPubl .ok ⟨[], 0⟩ ptype lower upper scope port key
      = (some (publ_create ptype lower upper scope own port key),
         ⟨[⟨ptype, [⟨lower, upper,
            ⟨[publ_create ptype lower upper scope own port key],
             [publ_create ptype lower upper scope own port key]⟩⟩], 1, []⟩], 1⟩,
         []) := by
  have hval : ¬ (TIPC_NODE_SCOPE < scope ∨ upper < lower) := by
    push_neg
    exact ⟨h2, h1⟩
  have hfind : nametbl_find_seq ⟨[], 0⟩ ptype = none := rfl
  have hins := tbl_insert_fresh own .ok ⟨[], 0⟩ ptype lower upper scope own
    port key hval hfind rfl
  rw [nameseq_insert_fresh own ptype lower upper scope own port key] at hins
  unfold tipc_nametbl_publish
  rw [if_neg (by simp only []; omega)]
  simp only [hins]
  have hown : in_own_node own own = true := by simp [in_own_node]
  rw [hown]
  rfl

theorem translate_single_binding (own ptype lower upper inst : Nat)
    (p : Publication)
    (h1 : lower ≤ upper) (hl : lower ≤ inst) (hu : inst ≤ upper) :
    (tipc_nametbl_translate own
        ⟨[⟨ptype, [⟨lower, upper, ⟨[p], [p]⟩⟩], 1, []⟩], 1⟩ ptype inst 0).1
      = p.port ∧
    (tipc_nametbl_translate own
        ⟨[⟨ptype, [⟨lower, upper, ⟨[p], [p]⟩⟩], 1, []⟩], 1⟩ ptype inst 0).2.1
      = p.node := by
  have hfs : nameseq_find_subseq ⟨ptype, [⟨lower, upper, ⟨[p], [p]⟩⟩], 1, []⟩ inst
      = some 0 := by
    refine find_subseq_of_contains _ inst ?_ ?_ 0 (by simp) ⟨hl, hu⟩
    · exact List.pairwise_singleton _ _
    · intro s hs
      rw [List.mem_singleton] at hs
      subst hs
      exact h1
  unfold tipc_nametbl_translate
  rw [if_neg (by simp [tipc_in_scope])]
  have hfd : nametbl_find_seq ⟨[⟨ptype, [⟨lower, upper, ⟨[p], [p]⟩⟩], 1, []⟩], 1⟩
      ptype = some 0 := by
    simp [nametbl_find_seq, firstSatIdx]
  simp only [hfd]
  simp only [List.getD_cons_zero]
  simp only [hfs]
  simp

/-- C1: for every publish on this node with valid arguments (lower ≤
upper, scope within the maximum) into an otherwise empty table, an
immediately following translate with the same type, any instance in
[lower, upper] and destnode 0 returns the published (port, node); in the
concrete scenario, after publishing (type 10, lower 5, upper 5, node
scope, own node, port 100, key 1), translate (10, 5, destnode 0) returns
(port 100, own node), and after withdrawing that same tuple the same
translate returns (port 0, node 0). -/
theorem C1_publish_then_translate :
    (∀ own maxPubl ptype lower upper scope port key inst : Nat,
      lower ≤ upper → scope ≤ TIPC_NODE_SCOPE → 0 < maxPubl →
      lower ≤ inst → inst ≤ upper →
      (tipc_nametbl_publish own maxPubl .ok ⟨[], 0⟩ ptype lower upper scope
          port key).1 = some (publ_create ptype lower upper scope own port key) ∧
      (tipc_nametbl_translate own
        (tipc_nametbl_publish own maxPubl .ok ⟨[], 0⟩ ptype lower upper scope
          port key).2.1 ptype inst 0).1 = port ∧
      (tipc_nametbl_translate own
        (tipc_nametbl_publish own maxPubl .ok ⟨[], 0⟩ ptype lower upper scope
          port key).2.1 ptype inst 0).2.1 = own) ∧
    ((tipc_nametbl_translate 1
        (tipc_nametbl_publish 1 65536 .ok ⟨[], 0⟩ 10 5 5 3 100 1).2.1
        10 5 0).1 = 100 ∧
     (tipc_nametbl_translate 1
        (tipc_nametbl_publish 1 65536 .ok ⟨[], 0⟩ 10 5 5 3 100 1).2.1
        10 5 0).2.1 = 1 ∧
     (tipc_nametbl_translate 1
        (tipc_nametbl_withdraw 1
          (tipc_nametbl_publish 1 65536 .ok ⟨[], 0⟩ 10 5 5 3 100 1).2.1
          10 5 100 1).2.1 10 5 0).1 = 0 ∧
     (tipc_nametbl_translate 1
        (tipc_nametbl_withdraw 1
          (tipc_nametbl_publish 1 65536 .ok ⟨[], 0⟩ 10 5 5 3 100 1).2.1
          10 5 100 1).2.1 10 5 0).2.1 = 0) := by
  constructor
  · intro own maxPubl ptype lower upper scope port key inst h1 h2 h3 hl hu
    rw [publish_empty own maxPubl ptype lower upper scope port key h1 h2 h3]
    have ht := translate_single_binding own ptype lower upper inst
      (publ_create ptype lower upper scope own port key) h1 hl hu
    exact ⟨rfl, ht.1, ht.2⟩
  · decide

/-- C1 witness: the general statement applied at the concrete input own
node 1, quota 10, type 7, range [2,6], node scope, port 55, key 9,
instance 4. -/
theorem C1_witness :
    (tipc_nametbl_publish 1 10 .ok ⟨[], 0⟩ 7 2 6 3 55 9).1
      = some (publ_create 7 2 6 3 1 55 9) ∧
    (tipc_nametbl_translate 1
      (tipc_nametbl_publish 1 10 .ok ⟨[], 0⟩ 7 2 6 3 55 9).2.1 7 4 0).1 = 55 ∧
    (tipc_nametbl_translate 1
      (tipc_nametbl_publish 1 10 .ok ⟨[], 0⟩ 7 2 6 3 55 9).2.1 7 4 0).2.1 = 1 :=
  C1_publish_then_translate.1 1 10 7 2 6 3 55 9 4 (by decide) (by decide)
    (by decide) (by decide) (by decide)

/-! C10: dstcnt counts every accepted publication, the destination list is
deduplicated. -/

/-- The acceptance test of the lookup scan: exact scope match and not the
caller's own excluded (port, node). -/
def lookupAccept (own scope exclude : Nat) (p : Publication) : Bool :=
  decide (p.scope = scope) && !(decide (p.port = exclude ∧ p.node = own))

theorem lookup_scan_all_none (own scope exclude : Nat) :
    ∀ (ps : List Publication) (dsts : List (Nat × Nat)) (cnt : Nat),
      (lookup_scan own scope exclude true ps dsts cnt).2.2 = none := by
  intro ps
  induction ps with
  | nil => intro dsts cnt; rfl
  | cons p t ih =>
    intro dsts cnt
    rw [lookup_scan]
    by_cases h1 : p.scope ≠ scope
    · rw [if_pos h1]; exact ih dsts cnt
    · rw [if_neg h1]
      by_cases h2 : p.port = exclude ∧ p.node = own
      · rw [if_pos h2]; exact ih dsts cnt
      · rw [if_neg h2]
        simp only [if_pos rfl]
        exact ih _ _

theorem lookup_scan_all_count (own scope exclude : Nat) :
    ∀ (ps : List Publication) (dsts : List (Nat × Nat)) (cnt : Nat),
      (lookup_scan own scope exclude true ps dsts cnt).2.1 =
        cnt + (ps.filter (lookupAccept own scope exclude)).length := by
  intro ps
  induction ps with
  | nil => intro dsts cnt; simp [lookup_scan]
  | cons p t ih =>
    intro dsts cnt
    rw [lookup_scan]
    by_cases h1 : p.scope ≠ scope
    · rw [if_pos h1, ih dsts cnt]
      have hacc : lookupAccept own scope exclude p = false := by
        simp only [lookupAccept, Bool.and_eq_false_iff, decide_eq_false_iff_not]
        left
        exact h1
      simp [List.filter_cons, hacc]
    · rw [if_neg h1]
      push_neg at h1
      by_cases h2 : p.port = exclude ∧ p.node = own
      · rw [if_pos h2, ih dsts cnt]
        have hacc : lookupAccept own scope exclude p = false := by
          simp only [lookupAccept, Bool.and_eq_false_iff,
            Bool.not_eq_false', decide_eq_true_eq]
          right
          exact h2
        simp [List.filter_cons, hacc]
      · rw [if_neg h2]
        have hred : (if true = true then
              lookup_scan own scope exclude true t
                (tipc_dest_push dsts p.node p.port) (cnt + 1)
            else (tipc_dest_push dsts p.node p.port, cnt + 1, some p))
            = lookup_scan own scope exclude true t
                (tipc_dest_push dsts p.node p.port) (cnt + 1) := if_pos rfl
        rw [hred, ih _ _]
        have hacc : lookupAccept own scope exclude p = true := by
          simp only [lookupAccept, Bool.and_eq_true, decide_eq_true_eq,
            Bool.not_eq_true', decide_eq_false_iff_not]
          exact ⟨h1, h2⟩
        simp only [List.filter_cons, hacc, if_true]
        simp only [List.length_cons]
        omega

/-- A table with one sub-sequence [5,5] of type 7 holding two
publications that differ only in key, so they carry the same (node, port)
destination value. -/
def c10tbl : NameTable :=
  ⟨[⟨7, [⟨5, 5, ⟨[], [⟨7, 5, 5, 3, 2, 30, 1⟩, ⟨7, 5, 5, 3, 2, 30, 2⟩]⟩⟩],
    1, []⟩], 0⟩

/-- C10: in tipc_nametbl_lookup the output count dstcnt is incremented
once for every publication of the matching sub-sequence's all list whose
scope equals the requested scope and which is not the caller's own
excluded (port, node) — also when tipc_dest_push adds nothing because that
(node, port) value is already in the destination list — so with all = true
dstcnt can exceed the length of the returned deduplicated destination
list: on the concrete two-publication input, dstcnt is 2 while the
destination list has one entry. -/
theorem C10_lookup_count_vs_dedup :
    (∀ (own : Nat) (tbl : NameTable) (ptype inst scope : Nat)
      (dsts0 : List (Nat × Nat)) (exclude i j : Nat),
      nametbl_find_seq tbl ptype = some i →
      nameseq_find_subseq (tbl.seqs.getD i default) inst = some j →
      (tipc_nametbl_lookup own tbl ptype inst scope dsts0 exclude true).2.1 =
        (((tbl.seqs.getD i default).sseqs.getD j default).info.all_publ.filter
          (lookupAccept own scope exclude)).length) ∧
    ((tipc_nametbl_lookup 1 c10tbl 7 5 3 [] 0 true).2.1 = 2 ∧
     (tipc_nametbl_lookup 1 c10tbl 7 5 3 [] 0 true).1.length = 1) := by
  constructor
  · intro own tbl ptype inst scope dsts0 exclude i j hfind hfs
    unfold tipc_nametbl_lookup
    simp only [hfind, hfs]
    simp only [lookup_scan_all_none]
    rw [lookup_scan_all_count]
    omega
  · exact ⟨by decide, by decide⟩

/-- C10 witness: the counting statement applied at the concrete
two-publication table. -/
theorem C10_witness :
    (tipc_nametbl_lookup 1 c10tbl 7 5 3 [] 0 true).2.1 =
      (((c10tbl.seqs.getD 0 default).sseqs.getD 0 default).info.all_publ.filter
        (lookupAccept 1 3 0)).length :=
  C10_lookup_count_vs_dedup.1 1 c10tbl 7 5 3 [] 0 0 0 (by decide) (by decide)

/-! C7: the subscription snapshot. -/

/-- The snapshot described by the claim: for every existing sub-sequence
overlapping the subscription's range, one PUBLISHED event per publication
of its all list, must_report true for the first publication of the
sub-sequence and false for every later one. -/
def subscribeSnapshotSpec (nseq : NameSeq) (sub : Subscription) : List Event :=
  nseq.sseqs.flatMap fun ss =>
    if tipc_sub_check_overlap sub.slower sub.supper ss.lower ss.upper then
      match ss.info.all_publ with
      | [] => []
      | p :: tl =>
        ⟨.published, ss.lower, ss.upper, p.port, p.node, p.scope, true⟩ ::
          tl.map fun q =>
            ⟨.published, ss.lower, ss.upper, q.port, q.node, q.scope, false⟩
    else []

theorem subscribeReports_false_map (sub : Subscription) (flo fup : Nat)
    (hover : tipc_sub_check_overlap sub.slower sub.supper flo fup = true) :
    ∀ ps : List Publication,
      subscribeReports sub flo fup ps false =
        ps.map fun q => ⟨.published, flo, fup, q.port, q.node, q.scope, false⟩ := by
  intro ps
  induction ps with
  | nil => rfl
  | cons p tl ih =>
    rw [subscribeReports, tipc_sub_report_overlap, if_pos hover, ih]
    rfl

theorem subscribeReports_all (sub : Subscription) (flo fup : Nat)
    (hover : tipc_sub_check_overlap sub.slower sub.supper flo fup = true)
    (ps : List Publication) (must : Bool) :
    subscribeReports sub flo fup ps must =
      (match ps with
       | [] => []
       | p :: tl =>
         (⟨.published, flo, fup, p.port, p.node, p.scope, must⟩ : Event) ::
           tl.map fun q =>
             ⟨.published, flo, fup, q.port, q.node, q.scope, false⟩) := by
  cases ps with
  | nil => rfl
  | cons p tl =>
    rw [subscribeReports, tipc_sub_report_overlap, if_pos hover,
      subscribeReports_false_map sub flo fup hover tl]
    rfl

/-- A name sequence with one sub-sequence [5,9] holding two publications,
and an overlapping subscription, for the concrete part of C7. -/
def c7seq : NameSeq :=
  ⟨7, [⟨5, 9, ⟨[], [⟨7, 5, 9, 3, 2, 30, 1⟩, ⟨7, 5, 9, 3, 2, 31, 2⟩]⟩⟩], 1, []⟩

/-- The subscription of the C7 concrete scenario: range [0,100] of type 7,
status events enabled. -/
def c7sub : Subscription := ⟨7, 0, 100, false⟩

/-- C7: subscribe without the no-status filter delivers, for every
existing sub-sequence overlapping the subscription's range, exactly one
PUBLISHED event per publication of that sub-sequence's all list, with
must_report true for the first publication of each overlapping
sub-sequence and false for every later one; concretely, subscribing to a
range already holding two publications across one sub-sequence delivers
exactly two PUBLISHED events, must_report true then false. -/
theorem C7_subscribe_snapshot :
    (∀ (nseq : NameSeq) (sub : Subscription), sub.noStatus = false →
      (tipc_nameseq_subscribe nseq sub).2 = subscribeSnapshotSpec nseq sub) ∧
    (tipc_nameseq_subscribe c7seq c7sub).2 =
      [⟨.published, 5, 9, 30, 2, 3, true⟩, ⟨.published, 5, 9, 31, 2, 3, false⟩] := by
  constructor
  · intro nseq sub hns
    unfold tipc_nameseq_subscribe subscribeSnapshotSpec
    rw [if_neg (by simp [hns])]
    refine congrArg (List.flatMap nseq.sseqs) (funext ?_)
    intro ss
    by_cases hover : tipc_sub_check_overlap sub.slower sub.supper ss.lower
        ss.upper = true
    · rw [if_pos hover, if_pos hover,
        subscribeReports_all sub ss.lower ss.upper hover ss.info.all_publ true]
    · rw [if_neg hover, if_neg hover]
  · decide

/-- C7 witness: the general snapshot statement applied at the concrete
two-publication sequence and subscription. -/
theorem C7_witness :
    (tipc_nameseq_subscribe c7seq c7sub).2 = subscribeSnapshotSpec c7seq c7sub :=
  C7_subscribe_snapshot.1 c7seq c7sub (by decide)

/-! C6: translate selection policy. -/

/-- C6: translate with destnode 0 selects the head of the matching
sub-sequence's local list whenever it is non-empty, else the head of the
all list, rotating the chosen entry to the tail of the list it came from;
translate with destnode equal to this node's own (non-zero) address
selects only from the local list and returns no match (port 0, destnode
written 0) when that list is empty, whatever the all list holds. -/
theorem C6_translate_policy (own : Nat) (tbl : NameTable) (ptype inst i j : Nat)
    (hown : own ≠ 0)
    (hfind : nametbl_find_seq tbl ptype = some i)
    (hfs : nameseq_find_subseq (tbl.seqs.getD i default) inst = some j) :
    (∀ p rest,
      ((tbl.seqs.getD i default).sseqs.getD j default).info.local_publ
          = p :: rest →
      tipc_nametbl_translate own tbl ptype inst 0 =
        (p.port, p.node,
         tblSetSeq tbl i (seqSetInfo (tbl.seqs.getD i default) j
           ⟨rest ++ [p],
            ((tbl.seqs.getD i default).sseqs.getD j default).info.all_publ⟩))) ∧
    (((tbl.seqs.getD i default).sseqs.getD j default).info.local_publ = [] →
     ∀ p rest,
      ((tbl.seqs.getD i default).sseqs.getD j default).info.all_publ
          = p :: rest →
      tipc_nametbl_translate own tbl ptype inst 0 =
        (p.port, p.node,
         tblSetSeq tbl i (seqSetInfo (tbl.seqs.getD i default) j
           ⟨((tbl.seqs.getD i default).sseqs.getD j default).info.local_publ,
            rest ++ [p]⟩))) ∧
    (∀ p rest,
      ((tbl.seqs.getD i default).sseqs.getD j default).info.local_publ
          = p :: rest →
      tipc_nametbl_translate own tbl ptype inst own =
        (p.port, p.node,
         tblSetSeq tbl i (seqSetInfo (tbl.seqs.getD i default) j
           ⟨rest ++ [p],
            ((tbl.seqs.getD i default).sseqs.getD j default).info.all_publ⟩))) ∧
    (((tbl.seqs.getD i default).sseqs.getD j default).info.local_publ = [] →
      tipc_nametbl_translate own tbl ptype inst own = (0, 0, tbl)) := by
  refine ⟨?_, ?_, ?_, ?_⟩
  · intro p rest hl
    unfold tipc_nametbl_translate
    rw [if_neg (by simp [tipc_in_scope])]
    simp only [hfind, hfs, hl]
    rw [if_pos trivial]
  · intro hl p rest ha
    unfold tipc_nametbl_translate
    rw [if_neg (by simp [tipc_in_scope])]
    simp only [hfind, hfs, hl, ha]
    rw [if_pos trivial]
  · intro p rest hl
    unfold tipc_nametbl_translate
    rw [if_neg (by simp [tipc_in_scope])]
    simp only [hfind, hfs, hl]
    rw [if_neg hown]
    simp
  · intro hl
    unfold tipc_nametbl_translate
    rw [if_neg (by simp [tipc_in_scope])]
    simp only [hfind, hfs, hl]
    rw [if_neg hown]
    simp

/-- A table with one remote binding (node 2) and no local binding for the
C6 witness. -/
def c6tbl : NameTable :=
  ⟨[⟨7, [⟨5, 5, ⟨[], [⟨7, 5, 5, 3, 2, 30, 1⟩]⟩⟩], 1, []⟩], 0⟩

/-- C6 witness: the own-destination conjunct applied at a concrete table
whose local list is empty while the all list is not: translate returns
(0, 0) and leaves the table unchanged. -/
theorem C6_witness : tipc_nametbl_translate 1 c6tbl 7 5 1 = (0, 0, c6tbl) :=
  (C6_translate_policy 1 c6tbl 7 5 0 0 (by decide) (by decide)
    (by decide)).2.2.2 rfl

/-! C8: withdrawing the last publication of a sub-sequence. -/

theorem reportEvents_mem (subs : List Subscription) (k : EvKind)
    (publ : Publication) (flag : Bool) :
    ∀ e ∈ reportEvents subs k publ flag, e.kind = k ∧ e.flag = flag := by
  intro e he
  unfold reportEvents at he
  rw [List.mem_flatMap] at he
  obtain ⟨s, _, he⟩ := he
  unfold tipc_sub_report_overlap at he
  by_cases hc : tipc_sub_check_overlap s.slower s.supper publ.lower publ.upper
  · rw [if_pos hc] at he
    rw [List.mem_singleton] at he
    subst he
    exact ⟨rfl, rfl⟩
  · rw [if_neg hc] at he
    cases he

/-- C8: withdrawing the last publication of a sub-sequence deletes that
slot: the remove returns the publication, the array is compacted at the
slot's index so the live entry count drops by exactly one, every
WITHDRAWN event delivered by this withdraw carries
removed_subsequence = true, and a subsequent find for any instance of the
former range returns none. -/
theorem C8_withdraw_last_deletes_slot (own : Nat) (ns : NameSeq)
    (inst node port key j : Nat) (p : Publication)
    (hinv : ns.Inv) (hj : j < ns.sseqs.length)
    (hc : containsInst (ns.sseqs.getD j default) inst)
    (hall : (ns.sseqs.getD j default).info.all_publ = [p])
    (hm : withdrawMatch key port node p = true) :
    (tipc_nameseq_remove_publ own ns inst node port key).1 = some p ∧
    (tipc_nameseq_remove_publ own ns inst node port key).2.1.sseqs
      = ns.sseqs.eraseIdx j ∧
    (tipc_nameseq_remove_publ own ns inst node port key).2.1.sseqs.length + 1
      = ns.sseqs.length ∧
    (∀ e ∈ (tipc_nameseq_remove_publ own ns inst node port key).2.2,
      e.kind = .withdrawn ∧ e.flag = true) ∧
    (∀ inst2, (ns.sseqs.getD j default).lower ≤ inst2 →
      inst2 ≤ (ns.sseqs.getD j default).upper →
      nameseq_find_subseq
        (tipc_nameseq_remove_publ own ns inst node port key).2.1 inst2 = none) := by
  have hs : seqSorted ns.sseqs := seqSorted_of_inv hinv
  have hw : seqWF ns.sseqs := hinv.2.2.1
  have hfind : nameseq_find_subseq ns inst = some j :=
    find_subseq_of_contains ns inst hs hw j hj hc
  have hmatch : (ns.sseqs.getD j default).info.all_publ.find?
      (withdrawMatch key port node) = some p := by
    rw [hall]
    simp [List.find?, hm]
  have herase : (ns.sseqs.getD j default).info.all_publ.erase p = [] := by
    rw [hall]
    simp
  have hrem := remove_publ_last own ns inst node port key j p hfind hmatch herase
  rw [hrem]
  have hlen : (ns.sseqs.eraseIdx j).length + 1 = ns.sseqs.length := by
    rw [List.length_eraseIdx]
    rw [if_pos hj]
    omega
  refine ⟨rfl, rfl, hlen, ?_, ?_⟩
  · exact reportEvents_mem ns.subscriptions .withdrawn p true
  · intro inst2 hl2 hu2
    refine find_subseq_of_none _ inst2 ?_
    intro k hk hck
    simp only [List.length_eraseIdx, if_pos hj] at hk
    have hklt : k < (ns.sseqs.eraseIdx j).length := by
      rw [List.length_eraseIdx, if_pos hj]
      omega
    rw [getD_eq_getElem _ k hklt, List.getElem_eraseIdx] at hck
    by_cases hkj : k < j
    · rw [dif_pos hkj] at hck
      have hrel := sorted_rel hs (lt_trans hkj hj) hj hkj
      rw [← getD_eq_getElem _ j hj, ← getD_eq_getElem _ k (lt_trans hkj hj)]
        at hrel
      rw [← getD_eq_getElem _ k (lt_trans hkj hj)] at hck
      obtain ⟨hck1, hck2⟩ := hck
      omega
    · rw [dif_neg hkj] at hck
      have hk1 : k + 1 < ns.sseqs.length := by omega
      have hjk : j < k + 1 := by omega
      have hrel := sorted_rel hs hj hk1 hjk
      rw [← getD_eq_getElem _ j hj, ← getD_eq_getElem _ (k + 1) hk1] at hrel
      rw [← getD_eq_getElem _ (k + 1) hk1] at hck
      obtain ⟨hck1, hck2⟩ := hck
      omega

/-- A one-sub-sequence, one-publication name sequence for the C8 witness. -/
def c8seq : NameSeq := ⟨7, [⟨5, 9, ⟨[], [⟨7, 5, 9, 3, 2, 30, 1⟩]⟩⟩], 1, []⟩

/-- C8 witness: withdrawing the only publication of the single
sub-sequence of c8seq returns it and compacts the array to empty. -/
theorem C8_witness :
    (tipc_nameseq_remove_publ 1 c8seq 5 2 30 1).1 = some ⟨7, 5, 9, 3, 2, 30, 1⟩ ∧
    (tipc_nameseq_remove_publ 1 c8seq 5 2 30 1).2.1.sseqs = [] := by
  have h := C8_withdraw_last_deletes_slot 1 c8seq 5 2 30 1 0 ⟨7, 5, 9, 3, 2, 30, 1⟩
    (by decide) (by decide) (by decide) (by decide) (by decide)
  exact ⟨h.1, h.2.1⟩

/-! C5: round-robin fairness of the single-destination lookup. -/

theorem getD_set_self {α : Type} [Inhabited α] (l : List α) (i : Nat) (x : α)
    (hi : i < l.length) : (l.set i x).getD i default = x := by
  rw [getD_eq_getElem _ i (by simpa using hi), List.getElem_set]
  simp

theorem getD_set_other {α : Type} [Inhabited α] (l : List α) (i : Nat) (x : α)
    (k : Nat) (hne : i ≠ k) : (l.set i x).getD k default = l.getD k default := by
  by_cases hk : k < l.length
  · rw [getD_eq_getElem _ k (by simpa using hk), getD_eq_getElem _ k hk,
      List.getElem_set]
    rw [if_neg hne]
  · have h1 : l.length ≤ k := le_of_not_lt hk
    rw [List.getD_eq_default _ _ (by simpa using h1),
      List.getD_eq_default _ _ h1]

theorem firstSatIdx_congr {α : Type} [Inhabited α] (P : α → Bool)
    (l l' : List α) (hlen : l'.length = l.length)
    (h : ∀ k, k < l.length → P (l'.getD k default) = P (l.getD k default)) :
    firstSatIdx P l' = firstSatIdx P l := by
  rcases hf : firstSatIdx P l with _ | i
  · rw [firstSatIdx_eq_none_iff] at hf ⊢
    intro k hk
    rw [h k (by omega)]
    exact hf k (by omega)
  · rw [firstSatIdx_eq_some_iff] at hf ⊢
    obtain ⟨hi, hP, hmin⟩ := hf
    refine ⟨by omega, ?_, ?_⟩
    · rw [h i hi]; exact hP
    · intro k hk
      rw [h k (lt_trans hk hi)]
      exact hmin k hk

theorem find_loop_bounds_congr (inst : Nat) (l l' : List SubSeq)
    (hlen : l'.length = l.length)
    (hb : ∀ k, (l'.getD k default).lower = (l.getD k default).lower ∧
      (l'.getD k default).upper = (l.getD k default).upper) :
    ∀ (fuel : Nat) (low high : Int),
      find_loop l' inst fuel low high = find_loop l inst fuel low high := by
  intro fuel
  induction fuel with
  | zero => intro low high; rfl
  | succ fuel ih =>
    intro low high
    by_cases hlh : low ≤ high
    · rw [find_loop_succ l' inst fuel low high hlh,
        find_loop_succ l inst fuel low high hlh]
      set mid : Int := (low + high) / 2
      rw [(hb mid.toNat).1, (hb mid.toNat).2]
      by_cases h1 : inst < (l.getD mid.toNat default).lower
      · rw [if_pos h1, if_pos h1]; exact ih _ _
      · rw [if_neg h1, if_neg h1]
        by_cases h2 : (l.getD mid.toNat default).upper < inst
        · rw [if_pos h2, if_pos h2]; exact ih _ _
        · rw [if_neg h2, if_neg h2]
    · rw [find_loop, if_neg hlh, find_loop, if_neg hlh]

theorem find_subseq_seqSetInfo (s : NameSeq) (j : Nat) (info' : NameInfo)
    (inst : Nat) (hj : j < s.sseqs.length) :
    nameseq_find_subseq (seqSetInfo s j info') inst
      = nameseq_find_subseq s inst := by
  unfold nameseq_find_subseq seqSetInfo
  rw [List.length_set]
  refine find_loop_bounds_congr inst _ _ (List.length_set _ _ _) ?_ _ _ _
  intro k
  by_cases hk : j = k
  · subst hk
    rw [getD_set_self _ _ _ hj]
    exact ⟨rfl, rfl⟩
  · rw [getD_set_other _ _ _ _ hk]
    exact ⟨rfl, rfl⟩

theorem find_seq_tblSetSeq (tbl : NameTable) (i : Nat) (s' : NameSeq)
    (t : Nat) (hi : i < tbl.seqs.length)
    (htype : s'.ntype = (tbl.seqs.getD i default).ntype) :
    nametbl_find_seq (tblSetSeq tbl i s') t = nametbl_find_seq tbl t := by
  unfold nametbl_find_seq tblSetSeq
  refine firstSatIdx_congr _ _ _ (by simp) ?_
  intro k hk
  by_cases hik : i = k
  · subst hik
    rw [getD_set_self _ _ _ hi]
    simp [htype]
  · rw [getD_set_other _ _ _ _ hik]

theorem set_getD_self {α : Type} [Inhabited α] (l : List α) (j : Nat)
    (hj : j < l.length) : l.set j (l.getD j default) = l := by
  refine List.ext_getElem (by simp) ?_
  intro n h1 h2
  rw [List.getElem_set]
  by_cases hjn : j = n
  · subst hjn
    rw [if_pos rfl, getD_eq_getElem _ _ hj]
  · rw [if_neg hjn]

theorem seqSetInfo_self (s : NameSeq) (j : Nat) (hj : j < s.sseqs.length) :
    seqSetInfo s j (s.sseqs.getD j default).info = s := by
  unfold seqSetInfo
  have : ({ s.sseqs.getD j default with
      info := (s.sseqs.getD j default).info } : SubSeq)
      = s.sseqs.getD j default := rfl
  rw [this, set_getD_self _ _ hj]

theorem tblSetSeq_self (tbl : NameTable) (i : Nat) (hi : i < tbl.seqs.length) :
    tblSetSeq tbl i (tbl.seqs.getD i default) = tbl := by
  unfold tblSetSeq
  rw [set_getD_self _ _ hi]

theorem seqSetInfo_twice (s : NameSeq) (j : Nat) (i1 i2 : NameInfo)
    (hj : j < s.sseqs.length) :
    seqSetInfo (seqSetInfo s j i1) j i2 = seqSetInfo s j i2 := by
  unfold seqSetInfo
  simp only [List.set_set]
  rw [getD_set_self _ _ _ hj]

theorem tblSetSeq_twice (tbl : NameTable) (i : Nat) (s1 s2 : NameSeq) :
    tblSetSeq (tblSetSeq tbl i s1) i s2 = tblSetSeq tbl i s2 := by
  unfold tblSetSeq
  simp only [List.set_set]

theorem lookup_scan_first_hit (own scope exclude : Nat) (p : Publication)
    (ps : List Publication) (dsts : List (Nat × Nat)) (cnt : Nat)
    (h1 : p.scope = scope) (h2 : ¬ (p.port = exclude ∧ p.node = own)) :
    lookup_scan own scope exclude false (p :: ps) dsts cnt
      = (tipc_dest_push dsts p.node p.port, cnt + 1, some p) := by
  rw [lookup_scan, if_neg (by simp [h1]), if_neg h2]
  simp

theorem lookup_step (own : Nat) (tbl : NameTable)
    (ptype inst scope exclude i j : Nat)
    (hfind : nametbl_find_seq tbl ptype = some i)
    (hfs : nameseq_find_subseq (tbl.seqs.getD i default) inst = some j)
    (p : Publication) (rest : List Publication)
    (hall : ((tbl.seqs.getD i default).sseqs.getD j default).info.all_publ
      = p :: rest)
    (h1 : p.scope = scope) (h2 : ¬ (p.port = exclude ∧ p.node = own)) :
    tipc_nametbl_lookup own tbl ptype inst scope [] exclude false
      = ([(p.node, p.port)], 1, true,
         tblSetSeq tbl i (seqSetInfo (tbl.seqs.getD i default) j
           ⟨((tbl.seqs.getD i default).sseqs.getD j default).info.local_publ,
            rest ++ [p]⟩)) := by
  unfold tipc_nametbl_lookup
  simp only [hfind, hfs, hall]
  rw [lookup_scan_first_hit own scope exclude p rest [] 0 h1 h2]
  simp only [List.erase_cons_head]
  rfl

/-- Iterated single-destination lookup: performs n successive lookups
with all = false and an empty destination list, collecting each call's
returned destination list. -/
def lookupIter (own ptype inst scope exclude : Nat) :
    Nat → NameTable → List (List (Nat × Nat)) × NameTable
  | 0, tbl => ([], tbl)
  | n + 1, tbl =>
    ((tipc_nametbl_lookup own tbl ptype inst scope [] exclude false).1 ::
       (lookupIter own ptype inst scope exclude n
         (tipc_nametbl_lookup own tbl ptype inst scope [] exclude false).2.2.2).1,
     (lookupIter own ptype inst scope exclude n
       (tipc_nametbl_lookup own tbl ptype inst scope [] exclude false).2.2.2).2)

theorem lookupIter_spec (own ptype inst scope exclude : Nat) :
    ∀ (n : Nat) (tbl : NameTable) (i j : Nat),
      i < tbl.seqs.length →
      j < (tbl.seqs.getD i default).sseqs.length →
      nametbl_find_seq tbl ptype = some i →
      nameseq_find_subseq (tbl.seqs.getD i default) inst = some j →
      (∀ p ∈ ((tbl.seqs.getD i default).sseqs.getD j default).info.all_publ,
        p.scope = scope ∧ ¬ (p.port = exclude ∧ p.node = own)) →
      n ≤ ((tbl.seqs.getD i default).sseqs.getD j default).info.all_publ.length →
      (lookupIter own ptype inst scope exclude n tbl).1
        = (((tbl.seqs.getD i default).sseqs.getD j default).info.all_publ.take
            n).map (fun p => [(p.node, p.port)]) ∧
      (lookupIter own ptype inst scope exclude n tbl).2
        = tblSetSeq tbl i (seqSetInfo (tbl.seqs.getD i default) j
            ⟨((tbl.seqs.getD i default).sseqs.getD j default).info.local_publ,
             ((tbl.seqs.getD i default).sseqs.getD
               j default).info.all_publ.rotate n⟩) := by
  intro n
  induction n with
  | zero =>
    intro tbl i j hi hj hfind hfs hacc hn
    refine ⟨rfl, ?_⟩
    rw [List.rotate_zero]
    have h1 : (⟨((tbl.seqs.getD i default).sseqs.getD j default).info.local_publ,
        ((tbl.seqs.getD i default).sseqs.getD j default).info.all_publ⟩ : NameInfo)
        = ((tbl.seqs.getD i default).sseqs.getD j default).info := rfl
    rw [h1, seqSetInfo_self _ _ hj, tblSetSeq_self _ _ hi]
    rfl
  | succ n ih =>
    intro tbl i j hi hj hfind hfs hacc hn
    rcases hallE : ((tbl.seqs.getD i default).sseqs.getD j default).info.all_publ
      with _ | ⟨p, rest⟩
    · rw [hallE] at hn; simp at hn
    · have hrest : n ≤ rest.length := by
        rw [hallE] at hn
        simpa using hn
      have hp := hacc p (by rw [hallE]; exact List.mem_cons_self p rest)
      have hstep := lookup_step own tbl ptype inst scope exclude i j hfind hfs
        p rest hallE hp.1 hp.2
      have hi1 : i < (tblSetSeq tbl i
          (seqSetInfo (tbl.seqs.getD i default) j
            ⟨((tbl.seqs.getD i default).sseqs.getD j default).info.local_publ,
             rest ++ [p]⟩)).seqs.length := by
        unfold tblSetSeq
        simpa using hi
      have hgetD1 : (tblSetSeq tbl i
          (seqSetInfo (tbl.seqs.getD i default) j
            ⟨((tbl.seqs.getD i default).sseqs.getD j default).info.local_publ,
             rest ++ [p]⟩)).seqs.getD i default
          = seqSetInfo (tbl.seqs.getD i default) j
            ⟨((tbl.seqs.getD i default).sseqs.getD j default).info.local_publ,
             rest ++ [p]⟩ := by
        unfold tblSetSeq
        exact getD_set_self _ _ _ hi
      have hj1 : j < (seqSetInfo (tbl.seqs.getD i default) j
          ⟨((tbl.seqs.getD i default).sseqs.getD j default).info.local_publ,
           rest ++ [p]⟩).sseqs.length := by
        unfold seqSetInfo
        simpa using hj
      have hslot1 : (seqSetInfo (tbl.seqs.getD i default) j
          ⟨((tbl.seqs.getD i default).sseqs.getD j default).info.local_publ,
           rest ++ [p]⟩).sseqs.getD j default
          = { (tbl.seqs.getD i default).sseqs.getD j default with info :=
              ⟨((tbl.seqs.getD i default).sseqs.getD j default).info.local_publ,
               rest ++ [p]⟩ } := by
        unfold seqSetInfo
        exact getD_set_self _ _ _ hj
      have hfind1 : nametbl_find_seq (tblSetSeq tbl i
          (seqSetInfo (tbl.seqs.getD i default) j
            ⟨((tbl.seqs.getD i default).sseqs.getD j default).info.local_publ,
             rest ++ [p]⟩)) ptype = some i := by
        rw [find_seq_tblSetSeq tbl i
          (seqSetInfo (tbl.seqs.getD i default) j
            ⟨((tbl.seqs.getD i default).sseqs.getD j default).info.local_publ,
             rest ++ [p]⟩) ptype hi rfl]
        exact hfind
      have hfs1 : nameseq_find_subseq ((tblSetSeq tbl i
          (seqSetInfo (tbl.seqs.getD i default) j
            ⟨((tbl.seqs.getD i default).sseqs.getD j default).info.local_publ,
             rest ++ [p]⟩)).seqs.getD i default) inst = some j := by
        rw [hgetD1, find_subseq_seqSetInfo _ _ _ _ hj]
        exact hfs
      obtain ⟨ih1, ih2⟩ := ih _ i j hi1 (by rw [hgetD1]; exact hj1) hfind1 hfs1
        (by
          rw [hgetD1, hslot1]
          intro q hq
          refine hacc q ?_
          rw [hallE]
          rcases List.mem_append.mp hq with h | h
          · exact List.mem_cons_of_mem p h
          · rw [List.mem_singleton] at h
            subst h
            exact List.mem_cons_self q rest)
        (by
          rw [hgetD1, hslot1]
          simpa using le_trans hrest (by simp))
      have hall1 : (((tblSetSeq tbl i
          (seqSetInfo (tbl.seqs.getD i default) j
            ⟨((tbl.seqs.getD i default).sseqs.getD j default).info.local_publ,
             rest ++ [p]⟩)).seqs.getD i default).sseqs.getD
          j default).info.all_publ = rest ++ [p] := by
        rw [hgetD1, hslot1]
      have hlocal1 : (((tblSetSeq tbl i
          (seqSetInfo (tbl.seqs.getD i default) j
            ⟨((tbl.seqs.getD i default).sseqs.getD j default).info.local_publ,
             rest ++ [p]⟩)).seqs.getD i default).sseqs.getD
          j default).info.local_publ
          = ((tbl.seqs.getD i default).sseqs.getD j default).info.local_publ := by
        rw [hgetD1, hslot1]
      constructor
      · show (tipc_nametbl_lookup own tbl ptype inst scope [] exclude false).1 ::
            (lookupIter own ptype inst scope exclude n
              (tipc_nametbl_lookup own tbl ptype inst scope
                [] exclude false).2.2.2).1 = _
        rw [hstep]
        simp only []
        rw [ih1, hall1]
        simp only [List.take_succ_cons, List.map_cons]
        congr 1
        rw [List.take_append_of_le_length hrest]
      · show (lookupIter own ptype inst scope exclude n
            (tipc_nametbl_lookup own tbl ptype inst scope
              [] exclude false).2.2.2).2 = _
        rw [hstep]
        simp only []
        rw [ih2, hall1, hlocal1, hgetD1]
        rw [tblSetSeq_twice, seqSetInfo_twice _ _ _ _ hj]
        rw [List.rotate_cons_succ]

/-- C5: after publishing N distinct bindings (distinct (port, key), same
scope) under one exact range, N successive single-destination lookups
(all = false, exclude matching none of them) return each of the N
bindings exactly once, in list order, before any binding repeats — each
call rotating the selected publication to the tail of the all list — and
after the N calls the table is back in its initial state, so the cycle
continues. -/
theorem C5_round_robin_lookup (own : Nat) (tbl : NameTable)
    (ptype inst scope exclude i j : Nat)
    (hi : i < tbl.seqs.length)
    (hj : j < (tbl.seqs.getD i default).sseqs.length)
    (hfind : nametbl_find_seq tbl ptype = some i)
    (hfs : nameseq_find_subseq (tbl.seqs.getD i default) inst = some j)
    (hacc : ∀ p ∈ ((tbl.seqs.getD i default).sseqs.getD j default).info.all_publ,
      p.scope = scope ∧ ¬ (p.port = exclude ∧ p.node = own))
    (_hnodup : (((tbl.seqs.getD i default).sseqs.getD
      j default).info.all_publ.map fun p => (p.port, p.key)).Nodup) :
    (lookupIter own ptype inst scope exclude
        ((tbl.seqs.getD i default).sseqs.getD j default).info.all_publ.length
        tbl).1
      = ((tbl.seqs.getD i default).sseqs.getD j default).info.all_publ.map
          (fun p => [(p.node, p.port)]) ∧
    (lookupIter own ptype inst scope exclude
        ((tbl.seqs.getD i default).sseqs.getD j default).info.all_publ.length
        tbl).2 = tbl ∧
    (∀ n, n ≤ ((tbl.seqs.getD i default).sseqs.getD
        j default).info.all_publ.length →
      (lookupIter own ptype inst scope exclude n tbl).2
        = tblSetSeq tbl i (seqSetInfo (tbl.seqs.getD i default) j
            ⟨((tbl.seqs.getD i default).sseqs.getD j default).info.local_publ,
             ((tbl.seqs.getD i default).sseqs.getD
               j default).info.all_publ.rotate n⟩)) := by
  obtain ⟨h1, h2⟩ := lookupIter_spec own ptype inst scope exclude
    ((tbl.seqs.getD i default).sseqs.getD j default).info.all_publ.length tbl
    i j hi hj hfind hfs hacc (le_refl _)
  refine ⟨?_, ?_, ?_⟩
  · rw [h1, List.take_length]
  · rw [h2, List.rotate_length]
    have he : (⟨((tbl.seqs.getD i default).sseqs.getD j default).info.local_publ,
        ((tbl.seqs.getD i default).sseqs.getD j default).info.all_publ⟩ : NameInfo)
        = ((tbl.seqs.getD i default).sseqs.getD j default).info := rfl
    rw [he, seqSetInfo_self _ _ hj, tblSetSeq_self _ _ hi]
  · intro n hn
    exact (lookupIter_spec own ptype inst scope exclude n tbl i j hi hj hfind
      hfs hacc hn).2

/-- A table with one sub-sequence [5,5] of type 7 holding three distinct
bindings, for the C5 witness. -/
def c5tbl : NameTable :=
  ⟨[⟨7, [⟨5, 5, ⟨[],
    [⟨7, 5, 5, 3, 2, 30, 1⟩, ⟨7, 5, 5, 3, 2, 31, 2⟩, ⟨7, 5, 5, 3, 4, 32, 3⟩]⟩⟩],
    1, []⟩], 0⟩

/-- C5 witness: three successive lookups on the three-binding table
return the three bindings in order and restore the table. -/
theorem C5_witness :
    (lookupIter 1 7 5 3 0 3 c5tbl).1 = [[(2, 30)], [(2, 31)], [(4, 32)]] ∧
    (lookupIter 1 7 5 3 0 3 c5tbl).2 = c5tbl := by
  have h := C5_round_robin_lookup 1 c5tbl 7 5 3 0 0 0 (by decide) (by decide)
    (by decide) (by decide) (by decide) (by decide)
  exact ⟨h.1, h.2.1⟩

/-! C3: the rejection condition of a publish into a name sequence. -/

/-- Two closed ranges intersect (both assumed well formed). -/
def rangeOverlap (s : SubSeq) (lower upper : Nat) : Prop :=
  s.lower ≤ upper ∧ lower ≤ s.upper

instance (s : SubSeq) (lower upper : Nat) :
    Decidable (rangeOverlap s lower upper) := by
  unfold rangeOverlap; infer_instance

theorem dupMatch_iff (port key node : Nat) (p : Publication) :
    dupMatch port key node p = true ↔
      p.port = port ∧ p.key = key ∧ (p.node = node ∨ p.node = 0) := by
  simp only [dupMatch, Bool.and_eq_true, Bool.or_eq_true, beq_iff_eq]
  tauto

theorem any_dup_iff (port key node : Nat) (l : List Publication) :
    l.any (dupMatch port key node) = true ↔
      ∃ p ∈ l, p.port = port ∧ p.key = key ∧ (p.node = node ∨ p.node = 0) := by
  rw [List.any_eq_true]
  constructor
  · intro ⟨p, hp, hd⟩
    exact ⟨p, hp, (dupMatch_iff port key node p).mp hd⟩
  · intro ⟨p, hp, hd⟩
    exact ⟨p, hp, (dupMatch_iff port key node p).mpr hd⟩

/-- An exact-range sub-sequence contains the new lower bound. -/
theorem contains_of_exact {s : SubSeq} {lower upper : Nat}
    (hlu : lower ≤ upper) (h1 : s.lower = lower) (h2 : s.upper = upper) :
    containsInst s lower := by
  unfold containsInst
  omega

/-- C3 (amended): with every allocation succeeding, a publish into a name
sequence returns none exactly when the new range overlaps an existing
sub-sequence without matching it exactly, or an exact-range sub-sequence
already holds a publication with the same port and key whose node equals
the new node or is the wildcard zero; and publishing the exact same range
with no such duplicate succeeds, the new publication joining the existing
all list. -/
theorem C3_insert_reject_iff (own : Nat) (ns : NameSeq)
    (ptype lower upper scope node port key : Nat)
    (hinv : ns.Inv) (hlu : lower ≤ upper) :
    ((tipc_nameseq_insert_publ own .ok ns ptype lower upper scope node
        port key).1 = none ↔
      (∃ k, k < ns.sseqs.length ∧
        rangeOverlap (ns.sseqs.getD k default) lower upper ∧
        ¬ ((ns.sseqs.getD k default).lower = lower ∧
           (ns.sseqs.getD k default).upper = upper)) ∨
      (∃ k, k < ns.sseqs.length ∧
        (ns.sseqs.getD k default).lower = lower ∧
        (ns.sseqs.getD k default).upper = upper ∧
        ∃ p ∈ (ns.sseqs.getD k default).info.all_publ,
          p.port = port ∧ p.key = key ∧ (p.node = node ∨ p.node = 0))) ∧
    (∀ k, k < ns.sseqs.length →
      (ns.sseqs.getD k default).lower = lower →
      (ns.sseqs.getD k default).upper = upper →
      (∀ p ∈ (ns.sseqs.getD k default).info.all_publ,
        ¬ (p.port = port ∧ p.key = key ∧ (p.node = node ∨ p.node = 0))) →
      (tipc_nameseq_insert_publ own .ok ns ptype lower upper scope node
        port key).1 = some (publ_create ptype lower upper scope node port key) ∧
      (((tipc_nameseq_insert_publ own .ok ns ptype lower upper scope node
        port key).2.1.sseqs.getD k default).info.all_publ
        = publ_create ptype lower upper scope node port key ::
          (ns.sseqs.getD k default).info.all_publ)) := by
  have hs : seqSorted ns.sseqs := seqSorted_of_inv hinv
  have hw : seqWF ns.sseqs := hinv.2.2.1
  constructor
  · rcases hf : nameseq_find_subseq ns lower with _ | j
    · have hnone := (find_subseq_none_iff ns lower hs hw).mp hf
      have hloc := locate_subseq_of_none ns lower hs hw hnone
      by_cases hov : nameseq_locate_subseq ns lower < ns.sseqs.length ∧
          (ns.sseqs.getD (nameseq_locate_subseq ns lower) default).lower ≤ upper
      · rw [insert_publ_overlap own .ok ns ptype lower upper scope node
          port key hf hov]
        have hlt : lower < (ns.sseqs.getD (nameseq_locate_subseq ns lower)
            default).lower := by
          rw [hloc]
          exact insPt_right ns.sseqs lower hs hw hnone _ (le_refl _)
            (by rw [← hloc]; exact hov.1)
        constructor
        · intro _
          left
          refine ⟨nameseq_locate_subseq ns lower, hov.1, ⟨hov.2, ?_⟩, ?_⟩
          · have h2 := hw _ (getD_mem _ _ hov.1)
            omega
          · intro ⟨he1, _⟩
            omega
        · intro _
          rfl
      · rw [insert_publ_new own .ok ns ptype lower upper scope node port key
          hf hov (fun _ => rfl) rfl rfl]
        constructor
        · intro h
          cases h
        · intro hrhs
          exfalso
          rcases hrhs with ⟨k, hk, hovk, hnex⟩ | ⟨k, hk, he1, he2, _⟩
          · rw [hloc] at hov
            by_cases hkp : k < insPt ns.sseqs lower
            · have h1 := insPt_left ns.sseqs lower k hkp
              have h2 := hovk.2
              unfold rangeOverlap at hovk
              omega
            · push_neg at hkp
              push_neg at hov
              have hle := insPt_le_length ns.sseqs lower
              by_cases hil : insPt ns.sseqs lower < ns.sseqs.length
              · have h3 := hov hil
                have h4 : (ns.sseqs.getD (insPt ns.sseqs lower) default).lower
                    ≤ (ns.sseqs.getD k default).lower := by
                  rw [getD_eq_getElem _ _ hil, getD_eq_getElem _ _ hk]
                  exact sorted_lower_mono hs hw hil hk hkp
                unfold rangeOverlap at hovk
                omega
              · omega
          · exact hnone k hk (contains_of_exact hlu he1 he2)
    · obtain ⟨hjlen, hcj⟩ := (find_subseq_some_iff ns lower hs hw j).mp hf
      by_cases hex : (ns.sseqs.getD j default).lower = lower ∧
          (ns.sseqs.getD j default).upper = upper
      · by_cases hdup : (ns.sseqs.getD j default).info.all_publ.any
            (dupMatch port key node) = true
        · rw [insert_publ_dup own .ok ns ptype lower upper scope node port key
            j hf hex hdup]
          constructor
          · intro _
            right
            exact ⟨j, hjlen, hex.1, hex.2, (any_dup_iff port key node _).mp hdup⟩
          · intro _
            rfl
        · have hdup' : (ns.sseqs.getD j default).info.all_publ.any
              (dupMatch port key node) = false := by
            revert hdup
            cases (ns.sseqs.getD j default).info.all_publ.any
              (dupMatch port key node) <;> simp
          rw [insert_publ_exact_ok own .ok ns ptype lower upper scope node
            port key j hf hex hdup' rfl]
          constructor
          · intro h
            cases h
          · intro hrhs
            exfalso
            rcases hrhs with ⟨k, hk, hovk, hnex⟩ | ⟨k, hk, he1, he2, hp⟩
            · by_cases hkj : k = j
              · subst hkj
                exact hnex hex
              · rcases Nat.lt_or_ge k j with h | h
                · have h1 := sorted_rel hs hk hjlen h
                  rw [← getD_eq_getElem _ _ hk, ← getD_eq_getElem _ _ hjlen]
                    at h1
                  unfold rangeOverlap at hovk
                  omega
                · have hjk : j < k := lt_of_le_of_ne h (fun he => hkj he.symm)
                  have h1 := sorted_rel hs hjlen hk hjk
                  rw [← getD_eq_getElem _ _ hk, ← getD_eq_getElem _ _ hjlen]
                    at h1
                  unfold rangeOverlap at hovk
                  omega
            · have hck : containsInst (ns.sseqs.getD k default) lower :=
                contains_of_exact hlu he1 he2
              have hkj : k = j := by
                rw [getD_eq_getElem _ _ hk] at hck
                rw [getD_eq_getElem _ _ hjlen] at hcj
                exact contains_unique hs hk hjlen hck hcj
              subst hkj
              exact absurd ((any_dup_iff port key node _).mpr hp)
                (by rw [hdup']; simp)
      · rw [insert_publ_not_exact own .ok ns ptype lower upper scope node
          port key j hf hex]
        constructor
        · intro _
          left
          refine ⟨j, hjlen, ⟨?_, hcj.2⟩, hex⟩
          exact le_trans hcj.1 hlu
        · intro _
          rfl
  · intro k hk he1 he2 hnop
    have hck : containsInst (ns.sseqs.getD k default) lower :=
      contains_of_exact hlu he1 he2
    have hfk : nameseq_find_subseq ns lower = some k :=
      find_subseq_of_contains ns lower hs hw k hk hck
    have hdup' : (ns.sseqs.getD k default).info.all_publ.any
        (dupMatch port key node) = false := by
      rw [List.any_eq_false]
      intro p hp
      rw [Bool.not_eq_true, ← Bool.not_eq_true, dupMatch_iff]
      exact hnop p hp
    rw [insert_publ_exact_ok own .ok ns ptype lower upper scope node port key
      k hfk ⟨he1, he2⟩ hdup' rfl]
    refine ⟨rfl, ?_⟩
    unfold seqSetInfo
    rw [getD_set_self _ _ _ hk]

/-- C3 counterexample: with the publication allocation failing, a publish
into an empty (freshly created) name sequence of type 7 is rejected
although no sub-sequence of that type exists at all, so neither an
overlap conflict nor a duplicate holds — the rejection condition of the
claim is not the only source of none. -/
theorem C3_counterexample :
    (tipc_nameseq_create 7).Inv ∧
    (tipc_nameseq_insert_publ 1 ⟨true, true, true, false⟩
      (tipc_nameseq_create 7) 7 1 2 3 1 9 9).1 = none ∧
    ¬ ((∃ k, k < (tipc_nameseq_create 7).sseqs.length ∧
        rangeOverlap ((tipc_nameseq_create 7).sseqs.getD k default) 1 2 ∧
        ¬ (((tipc_nameseq_create 7).sseqs.getD k default).lower = 1 ∧
           ((tipc_nameseq_create 7).sseqs.getD k default).upper = 2)) ∨
      (∃ k, k < (tipc_nameseq_create 7).sseqs.length ∧
        ((tipc_nameseq_create 7).sseqs.getD k default).lower = 1 ∧
        ((tipc_nameseq_create 7).sseqs.getD k default).upper = 2 ∧
        ∃ p ∈ ((tipc_nameseq_create 7).sseqs.getD k default).info.all_publ,
          p.port = 9 ∧ p.key = 9 ∧ (p.node = 1 ∨ p.node = 0))) := by
  refine ⟨by decide, by decide, ?_⟩
  intro h
  rcases h with ⟨k, hk, _⟩ | ⟨k, hk, _⟩ <;> exact Nat.not_lt_zero k hk

/-- A one-binding sequence of type 7 with the exact range [5,5], for the
C3 witness. -/
def c3seq : NameSeq := ⟨7, [⟨5, 5, ⟨[], [⟨7, 5, 5, 3, 2, 30, 1⟩]⟩⟩], 1, []⟩

/-- C3 witness: publishing the exact same range with a different
(port, key) succeeds and both publications coexist in the all list. -/
theorem C3_witness :
    (tipc_nameseq_insert_publ 1 .ok c3seq 7 5 5 3 2 31 2).1
      = some (publ_create 7 5 5 3 2 31 2) ∧
    (((tipc_nameseq_insert_publ 1 .ok c3seq 7 5 5 3 2 31 2).2.1.sseqs.getD
        0 default).info.all_publ
      = publ_create 7 5 5 3 2 31 2 :: (c3seq.sseqs.getD 0 default).info.all_publ) :=
  (C3_insert_reject_iff 1 c3seq 7 5 5 3 2 31 2 (by decide) (by decide)).2
    0 (by decide) (by decide) (by decide) (by decide)

/-! C2: the name sequence invariant is preserved by insert and remove. -/

theorem getD_mem_of_lt {l : List SubSeq} {k : Nat} (hk : k < l.length) :
    l.getD k default ∈ l := getD_mem l k hk

theorem insert_preserves_inv (own : Nat) (ns : NameSeq)
    (ptype lower upper scope node port key : Nat)
    (hinv : ns.Inv) (hlu : lower ≤ upper) :
    (tipc_nameseq_insert_publ own .ok ns ptype lower upper scope node
      port key).2.1.Inv := by
  have hs : seqSorted ns.sseqs := seqSorted_of_inv hinv
  have hw : seqWF ns.sseqs := hinv.2.2.1
  rcases hf : nameseq_find_subseq ns lower with _ | j
  · have hnone := (find_subseq_none_iff ns lower hs hw).mp hf
    have hloc := locate_subseq_of_none ns lower hs hw hnone
    by_cases hov : nameseq_locate_subseq ns lower < ns.sseqs.length ∧
        (ns.sseqs.getD (nameseq_locate_subseq ns lower) default).lower ≤ upper
    · rw [insert_publ_overlap own .ok ns ptype lower upper scope node
        port key hf hov]
      exact hinv
    · rw [insert_publ_new own .ok ns ptype lower upper scope node port key
        hf hov (fun _ => rfl) rfl rfl]
      have hle : nameseq_locate_subseq ns lower ≤ ns.sseqs.length :=
        locate_le_length ns lower
      have hbefore : ∀ k, k < nameseq_locate_subseq ns lower →
          (ns.sseqs.getD k default).upper < lower := by
        intro k hk
        rw [hloc] at hk
        exact insPt_left ns.sseqs lower k hk
      have hafter : ∀ k, nameseq_locate_subseq ns lower ≤ k →
          k < ns.sseqs.length → upper < (ns.sseqs.getD k default).lower := by
        intro k hk1 hk2
        rw [hloc] at hk1 hov
        push_neg at hov
        have hil : insPt ns.sseqs lower < ns.sseqs.length :=
          lt_of_le_of_lt hk1 hk2
        have h3 := hov hil
        have h4 : (ns.sseqs.getD (insPt ns.sseqs lower) default).lower
            ≤ (ns.sseqs.getD k default).lower := by
          rw [getD_eq_getElem _ _ hil, getD_eq_getElem _ _ hk2]
          exact sorted_lower_mono hs hw hil hk2 hk1
        omega
      refine ⟨?_, ?_, ?_, ?_⟩
      · refine pairwise_listInsertAt _ _ _ hle hinv.1 ?_ ?_
        · intro k hk
          have h1 := hbefore k hk
          have h2 := hw _ (getD_mem_of_lt (lt_of_lt_of_le hk hle))
          show (ns.sseqs.getD k default).lower < lower
          omega
        · intro k hk1 hk2
          have h1 := hafter k hk1 hk2
          show lower < (ns.sseqs.getD k default).lower
          omega
      · refine pairwise_listInsertAt _ _ _ hle hinv.2.1 ?_ ?_
        · intro k hk
          exact Or.inl (hbefore k hk)
        · intro k hk1 hk2
          exact Or.inl (hafter k hk1 hk2)
      · intro s hsm
        rcases (mem_listInsertAt _ s _ _).mp hsm with rfl | hsm
        · exact hlu
        · exact hw s hsm
      · intro s hsm
        rcases (mem_listInsertAt _ s _ _).mp hsm with rfl | hsm
        · simp
        · exact hinv.2.2.2 s hsm
  · obtain ⟨hjlen, _⟩ := (find_subseq_some_iff ns lower hs hw j).mp hf
    by_cases hex : (ns.sseqs.getD j default).lower = lower ∧
        (ns.sseqs.getD j default).upper = upper
    · by_cases hdup : (ns.sseqs.getD j default).info.all_publ.any
          (dupMatch port key node) = true
      · rw [insert_publ_dup own .ok ns ptype lower upper scope node port key
          j hf hex hdup]
        exact hinv
      · have hdup' : (ns.sseqs.getD j default).info.all_publ.any
            (dupMatch port key node) = false := by
          revert hdup
          cases (ns.sseqs.getD j default).info.all_publ.any
            (dupMatch port key node) <;> simp
        rw [insert_publ_exact_ok own .ok ns ptype lower upper scope node
          port key j hf hex hdup' rfl]
        unfold seqSetInfo
        refine ⟨?_, ?_, ?_, ?_⟩
        · refine pairwise_set _ j _ hjlen hinv.1 ?_ ?_
          · intro k hk
            have h := (List.pairwise_iff_getElem.mp hinv.1) k j
              (lt_trans hk hjlen) hjlen hk
            rw [← getD_eq_getElem _ _ (lt_trans hk hjlen),
              ← getD_eq_getElem _ _ hjlen] at h
            exact h
          · intro k hk1 hk2
            have h := (List.pairwise_iff_getElem.mp hinv.1) j k hjlen hk2 hk1
            rw [← getD_eq_getElem _ _ hk2, ← getD_eq_getElem _ _ hjlen] at h
            exact h
        · refine pairwise_set _ j _ hjlen hinv.2.1 ?_ ?_
          · intro k hk
            have h := (List.pairwise_iff_getElem.mp hinv.2.1) k j
              (lt_trans hk hjlen) hjlen hk
            rw [← getD_eq_getElem _ _ (lt_trans hk hjlen),
              ← getD_eq_getElem _ _ hjlen] at h
            exact h
          · intro k hk1 hk2
            have h := (List.pairwise_iff_getElem.mp hinv.2.1) j k hjlen hk2 hk1
            rw [← getD_eq_getElem _ _ hk2, ← getD_eq_getElem _ _ hjlen] at h
            exact h
        · intro s hsm
          rcases List.mem_or_eq_of_mem_set hsm with hsm | rfl
          · exact hw s hsm
          · exact hw (ns.sseqs.getD j default) (getD_mem_of_lt hjlen)
        · intro s hsm
          rcases List.mem_or_eq_of_mem_set hsm with hsm | rfl
          · exact hinv.2.2.2 s hsm
          · simp
    · rw [insert_publ_not_exact own .ok ns ptype lower upper scope node
        port key j hf hex]
      exact hinv

theorem remove_preserves_inv (own : Nat) (ns : NameSeq)
    (inst node port key : Nat) (hinv : ns.Inv) :
    (tipc_nameseq_remove_publ own ns inst node port key).2.1.Inv := by
  rcases hf : nameseq_find_subseq ns inst with _ | j
  · rw [remove_publ_no_subseq own ns inst node port key hf]
    exact hinv
  · rcases hm : (ns.sseqs.getD j default).info.all_publ.find?
        (withdrawMatch key port node) with _ | p
    · rw [remove_publ_not_found own ns inst node port key j hf hm]
      exact hinv
    · by_cases he : (ns.sseqs.getD j default).info.all_publ.erase p = []
      · rw [remove_publ_last own ns inst node port key j p hf hm he]
        have hsub := List.eraseIdx_sublist ns.sseqs j
        exact ⟨hinv.1.sublist hsub, hinv.2.1.sublist hsub,
          fun s hs => hinv.2.2.1 s (hsub.subset hs),
          fun s hs => hinv.2.2.2 s (hsub.subset hs)⟩
      · rw [remove_publ_keep own ns inst node port key j p hf hm he]
        unfold seqSetInfo
        by_cases hjlen : j < ns.sseqs.length
        · refine ⟨?_, ?_, ?_, ?_⟩
          · refine pairwise_set _ j _ hjlen hinv.1 ?_ ?_
            · intro k hk
              have h := (List.pairwise_iff_getElem.mp hinv.1) k j
                (lt_trans hk hjlen) hjlen hk
              rw [← getD_eq_getElem _ _ (lt_trans hk hjlen),
                ← getD_eq_getElem _ _ hjlen] at h
              exact h
            · intro k hk1 hk2
              have h := (List.pairwise_iff_getElem.mp hinv.1) j k hjlen hk2 hk1
              rw [← getD_eq_getElem _ _ hk2, ← getD_eq_getElem _ _ hjlen] at h
              exact h
          · refine pairwise_set _ j _ hjlen hinv.2.1 ?_ ?_
            · intro k hk
              have h := (List.pairwise_iff_getElem.mp hinv.2.1) k j
                (lt_trans hk hjlen) hjlen hk
              rw [← getD_eq_getElem _ _ (lt_trans hk hjlen),
                ← getD_eq_getElem _ _ hjlen] at h
              exact h
            · intro k hk1 hk2
              have h := (List.pairwise_iff_getElem.mp hinv.2.1) j k hjlen
                hk2 hk1
              rw [← getD_eq_getElem _ _ hk2, ← getD_eq_getElem _ _ hjlen] at h
              exact h
          · intro s hsm
            rcases List.mem_or_eq_of_mem_set hsm with hsm | rfl
            · exact hinv.2.2.1 s hsm
            · exact hinv.2.2.1 (ns.sseqs.getD j default) (getD_mem_of_lt hjlen)
          · intro s hsm
            rcases List.mem_or_eq_of_mem_set hsm with hsm | rfl
            · exact hinv.2.2.2 s hsm
            · exact he
        · rw [List.set_eq_of_length_le (by omega)]
          exact hinv

theorem create_inv (t : Nat) : (tipc_nameseq_create t).Inv := by
  refine ⟨List.Pairwise.nil, List.Pairwise.nil, ?_, ?_⟩ <;>
    intro s hs <;> cases hs

theorem find_seq_lt (tbl : NameTable) (t i : Nat)
    (h : nametbl_find_seq tbl t = some i) : i < tbl.seqs.length :=
  ((firstSatIdx_eq_some_iff _ tbl.seqs i).mp h).1

/-- C2 (amended): with every allocation succeeding, both publish and
withdraw preserve the invariant of every Name Sequence in the table —
sub-sequences sorted strictly ascending by lower, pairwise disjoint
well-formed ranges, non-empty binding sets — and removing the last
publication of a binding set deletes the sub-sequence slot with array
compaction. -/
theorem C2_mutations_preserve_invariant :
    (∀ (own : Nat) (tbl : NameTable)
      (ptype lower upper scope node port key : Nat),
      tbl.Inv →
      (tipc_nametbl_insert_publ own .ok tbl ptype lower upper scope node
        port key).2.1.Inv) ∧
    (∀ (own : Nat) (tbl : NameTable) (ptype lower node port key : Nat),
      tbl.Inv →
      (tipc_nametbl_remove_publ own tbl ptype lower node port key).2.1.Inv) ∧
    (∀ (own : Nat) (ns : NameSeq) (inst node port key j : Nat)
      (p : Publication),
      nameseq_find_subseq ns inst = some j →
      (ns.sseqs.getD j default).info.all_publ.find?
        (withdrawMatch key port node) = some p →
      (ns.sseqs.getD j default).info.all_publ.erase p = [] →
      (tipc_nameseq_remove_publ own ns inst node port key).1 = some p ∧
      (tipc_nameseq_remove_publ own ns inst node port key).2.1.sseqs
        = ns.sseqs.eraseIdx j) := by
  refine ⟨?_, ?_, ?_⟩
  · intro own tbl ptype lower upper scope node port key hinv
    by_cases hval : TIPC_NODE_SCOPE < scope ∨ upper < lower
    · rw [tbl_insert_invalid own .ok tbl ptype lower upper scope node
        port key hval]
      exact hinv
    · have hlu : lower ≤ upper := by
        push_neg at hval
        exact hval.2
      rcases hfd : nametbl_find_seq tbl ptype with _ | i
      · rw [tbl_insert_fresh own .ok tbl ptype lower upper scope node
          port key hval hfd rfl]
        intro s hs
        rcases List.mem_cons.mp hs with rfl | hs
        · exact insert_preserves_inv own (tipc_nameseq_create ptype) ptype
            lower upper scope node port key (create_inv ptype) hlu
        · exact hinv s hs
      · rw [tbl_insert_existing own .ok tbl ptype lower upper scope node
          port key i hval hfd]
        intro s hs
        rcases List.mem_or_eq_of_mem_set hs with hs | rfl
        · exact hinv s hs
        · exact insert_preserves_inv own (tbl.seqs.getD i default) ptype
            lower upper scope node port key
            (hinv _ (getD_mem _ _ (find_seq_lt tbl ptype i hfd))) hlu
  · intro own tbl ptype lower node port key hinv
    rcases hfd : nametbl_find_seq tbl ptype with _ | i
    · rw [tbl_remove_no_seq own tbl ptype lower node port key hfd]
      exact hinv
    · rw [tbl_remove_found own tbl ptype lower node port key i hfd]
      by_cases hC : ((tipc_nameseq_remove_publ own (tbl.seqs.getD i default)
          lower node port key).2.1.sseqs.length = 0 ∧
        (tipc_nameseq_remove_publ own (tbl.seqs.getD i default)
          lower node port key).2.1.subscriptions = [])
      · rw [if_pos hC]
        intro s hs
        exact hinv s ((List.eraseIdx_sublist tbl.seqs i).subset hs)
      · rw [if_neg hC]
        intro s hs
        rcases List.mem_or_eq_of_mem_set hs with hs | rfl
        · exact hinv s hs
        · exact remove_preserves_inv own (tbl.seqs.getD i default) lower
            node port key (hinv _ (getD_mem _ _ (find_seq_lt tbl ptype i hfd)))
  · intro own ns inst node port key j p hf hm he
    rw [remove_publ_last own ns inst node port key j p hf hm he]
    exact ⟨rfl, rfl⟩

/-- C2 counterexample: starting from the (trivially invariant) empty
table, a publish whose publication allocation fails leaves a freshly
inserted sub-sequence slot with an empty binding set linked in the table,
so the mutation does not preserve the invariant as the claim states it
for every publish. -/
theorem C2_counterexample :
    NameTable.Inv ⟨[], 0⟩ ∧
    ¬ (tipc_nametbl_insert_publ 1 ⟨true, true, true, false⟩ ⟨[], 0⟩
        7 1 2 3 1 9 9).2.1.Inv := by
  refine ⟨?_, by decide⟩
  intro s hs
  cases hs

/-- C2 witness: the insert-preservation statement applied at the concrete
one-binding table c3seq inserting a disjoint range. -/
theorem C2_witness :
    (tipc_nametbl_insert_publ 1 .ok ⟨[c3seq], 1⟩ 7 10 12 3 2 40 5).2.1.Inv :=
  C2_mutations_preserve_invariant.1 1 ⟨[c3seq], 1⟩ 7 10 12 3 2 40 5 (by decide)

/-! C4: what a rejected publish leaves behind. -/

/-- Every publication linked anywhere in the table. -/
def allPubls (tbl : NameTable) : List Publication :=
  tbl.seqs.flatMap fun s => s.sseqs.flatMap fun ss => ss.info.all_publ

theorem insert_publ_grow_fail (own : Nat) (plan : AllocPlan) (nseq : NameSeq)
    (ptype lower upper scope node port key : Nat)
    (hfind : nameseq_find_subseq nseq lower = none)
    (hov : ¬ (nameseq_locate_subseq nseq lower < nseq.sseqs.length ∧
      (nseq.sseqs.getD (nameseq_locate_subseq nseq lower) default).lower ≤ upper))
    (hfull : (nseq.sseqs.length == nseq.alloc) = true)
    (hgrow : plan.growOk = false) :
    tipc_nameseq_insert_publ own plan nseq ptype lower upper scope node port key
      = (none, nseq, []) := by
  unfold tipc_nameseq_insert_publ
  simp only [hfind]
  rw [if_neg hov, hfull, hgrow]
  simp

theorem insert_publ_info_fail (own : Nat) (plan : AllocPlan) (nseq : NameSeq)
    (ptype lower upper scope node port key : Nat)
    (hfind : nameseq_find_subseq nseq lower = none)
    (hov : ¬ (nameseq_locate_subseq nseq lower < nseq.sseqs.length ∧
      (nseq.sseqs.getD (nameseq_locate_subseq nseq lower) default).lower ≤ upper))
    (hgrow : (nseq.sseqs.length == nseq.alloc) = true → plan.growOk = true)
    (hinfo : plan.infoOk = false) :
    tipc_nameseq_insert_publ own plan nseq ptype lower upper scope node port key
      = (none, { nseq with alloc := if nseq.sseqs.length == nseq.alloc then
          nseq.alloc * 2 else nseq.alloc }, []) := by
  unfold tipc_nameseq_insert_publ
  simp only [hfind]
  rw [if_neg hov]
  by_cases hla : (nseq.sseqs.length == nseq.alloc) = true
  · rw [if_pos hla, hgrow hla, if_pos rfl]
    simp only []
    rw [if_neg (by simp [hinfo]), if_pos hla]
  · rw [if_neg hla]
    simp only []
    rw [if_neg (by simp [hinfo]), if_neg hla]

theorem insert_publ_new_publ_fail (own : Nat) (plan : AllocPlan)
    (nseq : NameSeq) (ptype lower upper scope node port key : Nat)
    (hfind : nameseq_find_subseq nseq lower = none)
    (hov : ¬ (nameseq_locate_subseq nseq lower < nseq.sseqs.length ∧
      (nseq.sseqs.getD (nameseq_locate_subseq nseq lower) default).lower ≤ upper))
    (hgrow : (nseq.sseqs.length == nseq.alloc) = true → plan.growOk = true)
    (hinfo : plan.infoOk = true) (hpub : plan.publOk = false) :
    tipc_nameseq_insert_publ own plan nseq ptype lower upper scope node port key
      = (none,
         { nseq with
           sseqs := listInsertAt (nameseq_locate_subseq nseq lower)
             ⟨lower, upper, ⟨[], []⟩⟩ nseq.sseqs
           alloc := if nseq.sseqs.length == nseq.alloc then nseq.alloc * 2
             else nseq.alloc },
         []) := by
  unfold tipc_nameseq_insert_publ
  simp only [hfind]
  rw [if_neg hov]
  by_cases hla : (nseq.sseqs.length == nseq.alloc) = true
  · rw [if_pos hla, hgrow hla, if_pos rfl]
    simp only []
    rw [if_pos hinfo, if_neg (by simp [hpub]), if_pos hla]
  · rw [if_neg hla]
    simp only []
    rw [if_pos hinfo, if_neg (by simp [hpub]), if_neg hla]

theorem insert_publ_exact_publ_fail (own : Nat) (plan : AllocPlan)
    (nseq : NameSeq) (ptype lower upper scope node port key j : Nat)
    (hfind : nameseq_find_subseq nseq lower = some j)
    (hexact : (nseq.sseqs.getD j default).lower = lower ∧
      (nseq.sseqs.getD j default).upper = upper)
    (hdup : (nseq.sseqs.getD j default).info.all_publ.any
      (dupMatch port key node) = false)
    (hpub : plan.publOk = false) :
    tipc_nameseq_insert_publ own plan nseq ptype lower upper scope node port key
      = (none, nseq, []) := by
  unfold tipc_nameseq_insert_publ
  simp only [hfind]
  rw [if_neg (by tauto), if_neg (by rw [hdup]; simp), if_neg (by simp [hpub])]

theorem flatMap_set_congr {α β : Type} [Inhabited α] (f : α → List β) :
    ∀ (l : List α) (i : Nat) (y : α), i < l.length →
      f y = f (l.getD i default) → (l.set i y).flatMap f = l.flatMap f := by
  intro l
  induction l with
  | nil => intro i y hi; simp at hi
  | cons a t ih =>
    intro i y hi hfy
    rcases i with _ | i
    · rw [List.set_cons_zero]
      simp only [List.flatMap_cons]
      rw [hfy]
      simp
    · rw [List.set_cons_succ]
      simp only [List.flatMap_cons]
      rw [ih i y (by simpa using hi) (by simpa using hfy)]

theorem flatMap_listInsertAt_nil {α β : Type} (f : α → List β) (x : α)
    (hx : f x = []) :
    ∀ (n : Nat) (l : List α), n ≤ l.length →
      (listInsertAt n x l).flatMap f = l.flatMap f := by
  intro n
  induction n with
  | zero =>
    intro l _
    rw [listInsertAt]
    simp [hx]
  | succ n ih =>
    intro l hn
    cases l with
    | nil => simp at hn
    | cons a t =>
      rw [listInsertAt]
      simp only [List.flatMap_cons]
      rw [ih t (by simpa using hn)]

/-- The publications linked in one name sequence. -/
def seqPubls (ns : NameSeq) : List Publication :=
  ns.sseqs.flatMap fun ss => ss.info.all_publ

theorem insert_none_seqPubls (own : Nat) (plan : AllocPlan) (ns : NameSeq)
    (ptype lower upper scope node port key : Nat)
    (hnone : (tipc_nameseq_insert_publ own plan ns ptype lower upper scope
      node port key).1 = none) :
    seqPubls (tipc_nameseq_insert_publ own plan ns ptype lower upper scope
      node port key).2.1 = seqPubls ns := by
  rcases hf : nameseq_find_subseq ns lower with _ | j
  · by_cases hov : nameseq_locate_subseq ns lower < ns.sseqs.length ∧
        (ns.sseqs.getD (nameseq_locate_subseq ns lower) default).lower ≤ upper
    · rw [insert_publ_overlap own plan ns ptype lower upper scope node
        port key hf hov]
    · by_cases hgrow : (ns.sseqs.length == ns.alloc) = true ∧ plan.growOk = false
      · rw [insert_publ_grow_fail own plan ns ptype lower upper scope node
          port key hf hov hgrow.1 hgrow.2]
      · have hgrow' : (ns.sseqs.length == ns.alloc) = true → plan.growOk = true := by
          intro h
          by_cases h2 : plan.growOk = true
          · exact h2
          · exact absurd ⟨h, by revert h2; cases plan.growOk <;> simp⟩ hgrow
        by_cases hinfo : plan.infoOk = true
        · by_cases hpub : plan.publOk = true
          · rw [insert_publ_new own plan ns ptype lower upper scope node
              port key hf hov (hgrow' ·) hinfo hpub] at hnone
            cases hnone
          · have hpub' : plan.publOk = false := by
              revert hpub; cases plan.publOk <;> simp
            rw [insert_publ_new_publ_fail own plan ns ptype lower upper scope
              node port key hf hov hgrow' hinfo hpub']
            unfold seqPubls
            exact flatMap_listInsertAt_nil _ _ rfl _ _ (locate_le_length ns lower)
        · have hinfo' : plan.infoOk = false := by
            revert hinfo; cases plan.infoOk <;> simp
          rw [insert_publ_info_fail own plan ns ptype lower upper scope node
            port key hf hov hgrow' hinfo']
          rfl
  · by_cases hex : (ns.sseqs.getD j default).lower = lower ∧
        (ns.sseqs.getD j default).upper = upper
    · by_cases hdup : (ns.sseqs.getD j default).info.all_publ.any
          (dupMatch port key node) = true
      · rw [insert_publ_dup own plan ns ptype lower upper scope node port key
          j hf hex hdup]
      · have hdup' : (ns.sseqs.getD j default).info.all_publ.any
            (dupMatch port key node) = false := by
          revert hdup
          cases (ns.sseqs.getD j default).info.all_publ.any
            (dupMatch port key node) <;> simp
        by_cases hpub : plan.publOk = true
        · rw [insert_publ_exact_ok own plan ns ptype lower upper scope node
            port key j hf hex hdup' hpub] at hnone
          cases hnone
        · have hpub' : plan.publOk = false := by
            revert hpub; cases plan.publOk <;> simp
          rw [insert_publ_exact_publ_fail own plan ns ptype lower upper scope
            node port key j hf hex hdup' hpub']
    · rw [insert_publ_not_exact own plan ns ptype lower upper scope node
        port key j hf hex]

theorem insert_none_ok_unchanged (own : Nat) (ns : NameSeq)
    (ptype lower upper scope node port key : Nat)
    (hnone : (tipc_nameseq_insert_publ own .ok ns ptype lower upper scope
      node port key).1 = none) :
    (tipc_nameseq_insert_publ own .ok ns ptype lower upper scope node
      port key).2.1 = ns := by
  rcases hf : nameseq_find_subseq ns lower with _ | j
  · by_cases hov : nameseq_locate_subseq ns lower < ns.sseqs.length ∧
        (ns.sseqs.getD (nameseq_locate_subseq ns lower) default).lower ≤ upper
    · rw [insert_publ_overlap own .ok ns ptype lower upper scope node
        port key hf hov]
    · rw [insert_publ_new own .ok ns ptype lower upper scope node port key
        hf hov (fun _ => rfl) rfl rfl] at hnone
      cases hnone
  · by_cases hex : (ns.sseqs.getD j default).lower = lower ∧
        (ns.sseqs.getD j default).upper = upper
    · by_cases hdup : (ns.sseqs.getD j default).info.all_publ.any
          (dupMatch port key node) = true
      · rw [insert_publ_dup own .ok ns ptype lower upper scope node port key
          j hf hex hdup]
      · have hdup' : (ns.sseqs.getD j default).info.all_publ.any
            (dupMatch port key node) = false := by
          revert hdup
          cases (ns.sseqs.getD j default).info.all_publ.any
            (dupMatch port key node) <;> simp
        rw [insert_publ_exact_ok own .ok ns ptype lower upper scope node
          port key j hf hex hdup' rfl] at hnone
        cases hnone
    · rw [insert_publ_not_exact own .ok ns ptype lower upper scope node
        port key j hf hex]

theorem tbl_insert_nseq_fail (own : Nat) (plan : AllocPlan) (tbl : NameTable)
    (ptype lower upper scope node port key : Nat)
    (hvalid : ¬ (TIPC_NODE_SCOPE < scope ∨ upper < lower))
    (hfind : nametbl_find_seq tbl ptype = none)
    (hplan : plan.nseqOk = false) :
    tipc_nametbl_insert_publ own plan tbl ptype lower upper scope node port key
      = (none, tbl, []) := by
  unfold tipc_nametbl_insert_publ
  rw [if_neg hvalid]
  simp only [hfind]
  rw [if_neg (by simp [hplan])]

/-- C4 (amended): a publish rejected for an invalid range or scope, an
overlap conflict or a duplicate leaves the name table unchanged, and no
rejected publish — under any allocation outcome — links a publication in;
but an allocation failure can leave a newly created empty Name Sequence
(and, after the slot insertion, an empty sub-sequence slot) linked in the
directory. -/
theorem C4_rejected_publish (own : Nat) :
    (∀ (tbl : NameTable) (ptype lower upper scope node port key : Nat),
      (tipc_nametbl_insert_publ own .ok tbl ptype lower upper scope node
        port key).1 = none →
      (tipc_nametbl_insert_publ own .ok tbl ptype lower upper scope node
        port key).2.1 = tbl) ∧
    (∀ (plan : AllocPlan) (tbl : NameTable)
      (ptype lower upper scope node port key : Nat),
      (tipc_nametbl_insert_publ own plan tbl ptype lower upper scope node
        port key).1 = none →
      allPubls (tipc_nametbl_insert_publ own plan tbl ptype lower upper scope
        node port key).2.1 = allPubls tbl) := by
  constructor
  · intro tbl ptype lower upper scope node port key hnone
    by_cases hval : TIPC_NODE_SCOPE < scope ∨ upper < lower
    · rw [tbl_insert_invalid own .ok tbl ptype lower upper scope node
        port key hval]
    · rcases hfd : nametbl_find_seq tbl ptype with _ | i
      · rw [tbl_insert_fresh own .ok tbl ptype lower upper scope node
          port key hval hfd rfl] at hnone
        rw [nameseq_insert_fresh own ptype lower upper scope node port key]
          at hnone
        cases hnone
      · rw [tbl_insert_existing own .ok tbl ptype lower upper scope node
          port key i hval hfd] at hnone ⊢
        have h1 := insert_none_ok_unchanged own (tbl.seqs.getD i default)
          ptype lower upper scope node port key hnone
        rw [h1, set_getD_self _ _ (find_seq_lt tbl ptype i hfd)]
  · intro plan tbl ptype lower upper scope node port key hnone
    by_cases hval : TIPC_NODE_SCOPE < scope ∨ upper < lower
    · rw [tbl_insert_invalid own plan tbl ptype lower upper scope node
        port key hval]
    · rcases hfd : nametbl_find_seq tbl ptype with _ | i
      · by_cases hplan : plan.nseqOk = true
        · rw [tbl_insert_fresh own plan tbl ptype lower upper scope node
            port key hval hfd hplan] at hnone ⊢
          have h1 := insert_none_seqPubls own plan (tipc_nameseq_create ptype)
            ptype lower upper scope node port key hnone
          unfold allPubls
          simp only [List.flatMap_cons]
          have h2 : seqPubls (tipc_nameseq_insert_publ own plan
              (tipc_nameseq_create ptype) ptype lower upper scope node
              port key).2.1 = [] := by
            rw [h1]
            rfl
          unfold seqPubls at h2
          rw [h2]
          rfl
        · have hplan' : plan.nseqOk = false := by
            revert hplan; cases plan.nseqOk <;> simp
          rw [tbl_insert_nseq_fail own plan tbl ptype lower upper scope node
            port key hval hfd hplan']
      · rw [tbl_insert_existing own plan tbl ptype lower upper scope node
          port key i hval hfd] at hnone ⊢
        have h1 := insert_none_seqPubls own plan (tbl.seqs.getD i default)
          ptype lower upper scope node port key hnone
        unfold allPubls
        refine flatMap_set_congr _ tbl.seqs i _ (find_seq_lt tbl ptype i hfd) ?_
        exact h1

/-- C4 counterexample: publishing a fresh type into the empty table with
the binding-set allocation failing is rejected, yet the newly created
Name Sequence stays linked in the directory — the table is changed by a
rejected publish, against the claim. -/
theorem C4_counterexample :
    (tipc_nametbl_insert_publ 1 ⟨true, true, false, true⟩ ⟨[], 0⟩
      7 1 2 3 1 9 9).1 = none ∧
    (tipc_nametbl_insert_publ 1 ⟨true, true, false, true⟩ ⟨[], 0⟩
      7 1 2 3 1 9 9).2.1.seqs = [⟨7, [], 1, []⟩] ∧
    (tipc_nametbl_insert_publ 1 ⟨true, true, false, true⟩ ⟨[], 0⟩
      7 1 2 3 1 9 9).2.1 ≠ ⟨[], 0⟩ := by
  decide

/-- C4 witness: a duplicate publish into the one-binding table is
rejected and leaves the table unchanged. -/
theorem C4_witness :
    (tipc_nametbl_insert_publ 1 .ok ⟨[c3seq], 1⟩ 7 5 5 3 2 30 1).2.1
      = ⟨[c3seq], 1⟩ :=
  (C4_rejected_publish 1).1 ⟨[c3seq], 1⟩ 7 5 5 3 2 30 1 (by decide)
